import Mathlib

/-!
Verification development for the khsd-nexus-chat data-access core.

The development shallowly embeds two parts of the code base:

* `app/stores.py`: the ChatKit persistence layer, with its two backends
  (`InMemoryStore` and `PostgresStore`), in particular the paginated
  `load_thread_items` operations, thread/item/attachment deletion and loads.
* `app/tools/peoplesoft/sql_builder.py`, `entities.py` and `tool.py`:
  the logical-entity query compiler `build_sql`, the `gl_summary` registry
  entry and the `query_ps_finance` tool wrapper.

Python `datetime` values are modelled as `Nat` (only their ordering is ever
used), ids and payloads as `String`, and Python dictionaries as association
lists in insertion order (CPython dictionaries preserve insertion order).
String comparison (used by the relational backend's `id` tie-break) is
modelled as lexicographic comparison of character codes.
-/

set_option maxRecDepth 80000

namespace App

/-! ## Character-wise string ordering

The relational backend sorts and keyset-compares `id` columns as strings.
We model SQL string comparison as lexicographic order on character codes. -/

def charsLt : List Char → List Char → Bool
  | _, [] => false
  | [], _ :: _ => true
  | a :: as, b :: bs =>
    if a < b then true
    else if b < a then false
    else charsLt as bs

def strLtb (a b : String) : Bool :=
  charsLt a.data b.data

/-- Non-strict string order, `a ≤ b` iff `¬ (b < a)`. -/
def strLeb (a b : String) : Bool :=
  !(strLtb b a)

/-! ## Composite keyset ordering `(createdAt, id)` -/

/-- SQL tuple comparison `(c₁, i₁) < (c₂, i₂)`, as used by the keyset
predicate `sa.tuple_(created_at, id) < / > anchor_key`. -/
def tupLt (k1 k2 : Nat × String) : Bool :=
  decide (k1.1 < k2.1) || (decide (k1.1 = k2.1) && strLtb k1.2 k2.2)

/-! ## First-match scan (the Python `for idx, item in enumerate(...)` loop) -/

def scanIdx {α : Type} (p : α → Bool) : List α → Option Nat
  | [] => none
  | a :: as => if p a then some 0 else (scanIdx p as).map (· + 1)

/-! ## Uniqueness of sorted permutations -/

/-! ## Data model (`app/models.py`, `chatkit.types`)

A `ThreadItem` carries an id, a creation instant and an opaque payload
(standing for the remaining serialized fields). -/

structure ThreadItem where
  id : String
  createdAt : Nat
  payload : String
deriving DecidableEq, Repr

/-- `chatkit.types.Page`: one page of a paginated listing. -/
structure Page (α : Type) where
  data : List α
  hasMore : Bool
  after : Option String
deriving DecidableEq, Repr

/-- A row of `chatkit_thread_items` (`ThreadItemRow` in `app/models.py`):
primary-key id, owning thread id, deserializable payload (`data`), and the
`created_at` column. -/
structure ThreadItemRowT where
  id : String
  threadId : String
  item : ThreadItem
  createdAt : Nat
deriving DecidableEq, Repr

/-- The keyset ordering key `(created_at, id)` of a row. -/
def rkey (r : ThreadItemRowT) : Nat × String :=
  (r.createdAt, r.id)

/-- The rows produced by inserting the items `l` into thread `tid` via
`add_thread_item` (which stores `id=item.id`, `created_at=item.created_at`). -/
def rowsOf (tid : String) (l : List ThreadItem) : List ThreadItemRowT :=
  l.map (fun it => ⟨it.id, tid, it, it.createdAt⟩)

/-! ## `InMemoryStore.load_thread_items` (`app/stores.py`, lines 65-94)

The items of the thread are a Python dict `id → item`; `.values()` lists them
in insertion order, which is the `l` below.  The code sorts by `created_at`
only (`key=lambda item: item.created_at`) with Python's stable sort, scans
for the position of `after` (silently starting at 0 when absent or falsy),
slices, and derives `has_more` positionally. -/

/-- Stable insertion of `x` into a sorted list: `x` goes before the first
element it compares `le` to, hence after every earlier-inserted element it
ties with. -/
def insertLe {α : Type} (le : α → α → Bool) (x : α) : List α → List α
  | [] => [x]
  | y :: ys => if le x y then x :: y :: ys else y :: insertLe le x ys

/-- A stable sort (insertion sort).  CPython's `list.sort` is stable, also
under `reverse=True`; any stable sort produces the same result, so this is
the model of `thread_items.sort(...)`. -/
def sortLe {α : Type} (le : α → α → Bool) : List α → List α
  | [] => []
  | x :: xs => insertLe le x (sortLe le xs)

/-- Python `list.sort(key=created_at, reverse=desc)`: a stable sort whose
comparison looks only at `createdAt`.  With `reverse=True` CPython keeps
equal elements in their original relative order, which is exactly a stable
sort under the flipped comparison. -/
def memLe (desc : Bool) (a b : ThreadItem) : Bool :=
  if desc then decide (b.createdAt ≤ a.createdAt) else decide (a.createdAt ≤ b.createdAt)

def memSorted (desc : Bool) (l : List ThreadItem) : List ThreadItem :=
  sortLe (memLe desc) l

/-- The `start_index` computation: `if after:` (false for `None` and for the
empty string) scan the sorted list for the first item with that id; missing
ids silently leave `start_index = 0`. -/
def memStartIndex (s : List ThreadItem) (a? : Option String) : Nat :=
  match a? with
  | none => 0
  | some a =>
    if a = "" then 0
    else
      match scanIdx (fun it => it.id = a) s with
      | some i => i + 1
      | none => 0

def loadThreadItemsMem (l : List ThreadItem) (a? : Option String) (limit : Nat)
    (desc : Bool) : Page ThreadItem :=
  let s := memSorted desc l
  let start := memStartIndex s a?
  let sliced := (s.drop start).take limit
  let hasMore := decide (start + limit < s.length)
  let nextAfter := if hasMore then sliced.getLast?.map (·.id) else none
  { data := sliced, hasMore := hasMore, after := nextAfter }

/-! ## `PostgresStore.load_thread_items` (`app/stores.py`, lines 308-340)

The query filters by `thread_id`, optionally applies the keyset predicate
`(created_at, id) </> anchor_key` (raising `NotFoundError` when the anchor id
resolves to no row), orders by `created_at` in the requested direction with
`id` ascending as tie-break, and fetches `limit + 1` rows. -/

/-- The `ORDER BY created_at asc/desc, id asc` comparison. -/
def rowLe (desc : Bool) (r1 r2 : ThreadItemRowT) : Bool :=
  if r1.createdAt = r2.createdAt then strLeb r1.id r2.id
  else if desc then decide (r2.createdAt < r1.createdAt)
  else decide (r1.createdAt < r2.createdAt)

/-- The result set ordering.  With unique primary-key ids the composite key
`(created_at, id)` is strictly total, so the SQL ordering is deterministic;
`sortLe` computes that ordering. -/
def pgSortedRows (desc : Bool) (q : List ThreadItemRowT) : List ThreadItemRowT :=
  sortLe (rowLe desc) q

/-- The keyset cursor predicate: `r` lies strictly past `anchor` in the
requested direction — `(created_at, id) < anchor_key` for `desc`,
`> anchor_key` otherwise. -/
def rowAfterB (desc : Bool) (anchor r : ThreadItemRowT) : Bool :=
  if desc then tupLt (rkey r) (rkey anchor) else tupLt (rkey anchor) (rkey r)

/-- The candidate row set of the query before ordering: the `thread_id`
filter plus the keyset cursor predicate.  `session.get(ThreadItemRow, after)`
is a primary-key lookup over all rows. -/
def pgCandidates (rows : List ThreadItemRowT) (tid : String) (a? : Option String)
    (desc : Bool) : Except String (List ThreadItemRowT) :=
  let base := rows.filter (fun r => r.threadId = tid)
  match a? with
  | none => Except.ok base
  | some a =>
    if a = "" then Except.ok base
    else
      match rows.find? (fun r => r.id = a) with
      | none => Except.error ("Thread item " ++ a ++ " not found")
      | some anchor => Except.ok (base.filter (rowAfterB desc anchor))

def loadThreadItemsPg (rows : List ThreadItemRowT) (tid : String) (a? : Option String)
    (limit : Nat) (desc : Bool) : Except String (Page ThreadItem) :=
  match pgCandidates rows tid a? desc with
  | Except.error e => Except.error e
  | Except.ok q =>
    let sorted := pgSortedRows desc q
    let fetched := sorted.take (limit + 1)
    let hasMore := decide (limit < fetched.length)
    let rowsPage := fetched.take limit
    let nextAfter := if hasMore then rowsPage.getLast?.map (·.id) else none
    Except.ok { data := rowsPage.map (·.item), hasMore := hasMore, after := nextAfter }

/-! ## Cursor-driven pagination loops

`pagesMem`/`pagesPg` repeatedly call the listing with the previous page's
`nextAfter` cursor until `hasMore` is false and concatenate the pages
(the protocol described by the spec's pagination contract).  `fuel` bounds
the number of rounds; `none` signals fuel exhaustion or a listing error. -/

def pagesMem (l : List ThreadItem) (limit : Nat) (desc : Bool) :
    Nat → Option String → Option (List ThreadItem)
  | 0, _ => none
  | fuel + 1, c =>
    let page := loadThreadItemsMem l c limit desc
    if page.hasMore then
      match pagesMem l limit desc fuel page.after with
      | none => none
      | some rest => some (page.data ++ rest)
    else some page.data

def pagesPg (rows : List ThreadItemRowT) (tid : String) (limit : Nat) (desc : Bool) :
    Nat → Option String → Option (List ThreadItem)
  | 0, _ => none
  | fuel + 1, c =>
    match loadThreadItemsPg rows tid c limit desc with
    | Except.error _ => none
    | Except.ok page =>
      if page.hasMore then
        match pagesPg rows tid limit desc fuel page.after with
        | none => none
        | some rest => some (page.data ++ rest)
      else some page.data

/-! ## Whole-store states and the CRUD operations used by C9/C10 -/

/-- `InMemoryStore`: `_threads : dict[id, metadata]`,
`_items : dict[thread_id, dict[item_id, item]]`, `_attachments : dict[id,
attachment]`; dictionaries are association lists in insertion order, metadata
and attachments are opaque payloads. -/
structure MemState where
  threads : List (String × String)
  items : List (String × List ThreadItem)
  attachments : List (String × String)
deriving DecidableEq, Repr

/-- `InMemoryStore.load_thread`. -/
def memLoadThread (s : MemState) (tid : String) : Except String String :=
  match s.threads.find? (fun p => p.1 = tid) with
  | none => Except.error ("Thread " ++ tid ++ " not found")
  | some p => Except.ok p.2

/-- `InMemoryStore.load_item`: thread existence is checked first, then the
item dictionary of the thread. -/
def memLoadItem (s : MemState) (tid iid : String) : Except String ThreadItem :=
  if (s.threads.find? (fun p => p.1 = tid)).isNone then
    Except.error ("Thread " ++ tid ++ " not found")
  else
    let its := ((s.items.find? (fun p => p.1 = tid)).map Prod.snd).getD []
    match its.find? (fun it => it.id = iid) with
    | none => Except.error ("Thread item " ++ iid ++ " not found in thread " ++ tid)
    | some it => Except.ok it

/-- `InMemoryStore.delete_thread`: `pop(thread_id, None)` on both
dictionaries — no error when absent. -/
def memDeleteThread (s : MemState) (tid : String) : MemState :=
  { s with
    threads := s.threads.filter (fun p => ¬ (p.1 = tid))
    items := s.items.filter (fun p => ¬ (p.1 = tid)) }

/-- `InMemoryStore.delete_thread_item`: `pop(item_id, None)` on the thread's
item dictionary — no error when absent. -/
def memDeleteItem (s : MemState) (tid iid : String) : MemState :=
  { s with
    items := s.items.map (fun p =>
      if p.1 = tid then (p.1, p.2.filter (fun it => ¬ (it.id = iid))) else p) }

/-- `InMemoryStore.delete_attachment`: `pop(attachment_id, None)`. -/
def memDeleteAttachment (s : MemState) (aid : String) : MemState :=
  { s with attachments := s.attachments.filter (fun p => ¬ (p.1 = aid)) }

/-- `PostgresStore` database state: the three tables of the persisted
layout.  Attachments are opaque payloads keyed by id. -/
structure PgState where
  threads : List (String × String)
  items : List ThreadItemRowT
  attachments : List (String × String)
deriving DecidableEq, Repr

/-- `PostgresStore.load_thread`. -/
def pgLoadThread (s : PgState) (tid : String) : Except String String :=
  match s.threads.find? (fun p => p.1 = tid) with
  | none => Except.error ("Thread " ++ tid ++ " not found")
  | some p => Except.ok p.2

/-- `PostgresStore.load_item`: a primary-key lookup; `NotFoundError` when the
row is absent or belongs to a different thread. -/
def pgLoadItem (s : PgState) (tid iid : String) : Except String ThreadItem :=
  match s.items.find? (fun r => r.id = iid) with
  | none => Except.error ("Thread item " ++ iid ++ " not found in thread " ++ tid)
  | some r =>
    if r.threadId = tid then Except.ok r.item
    else Except.error ("Thread item " ++ iid ++ " not found in thread " ++ tid)

/-- `PostgresStore.delete_thread`: deletes the thread row when present (no-op
otherwise); the `ON DELETE CASCADE` foreign key of `chatkit_thread_items`
(`app/models.py`) removes the thread's item rows with it. -/
def pgDeleteThread (s : PgState) (tid : String) : PgState :=
  match s.threads.find? (fun p => p.1 = tid) with
  | none => s
  | some _ =>
    { s with
      threads := s.threads.filter (fun p => ¬ (p.1 = tid))
      items := s.items.filter (fun r => ¬ (r.threadId = tid)) }

/-- `PostgresStore.delete_thread_item`: deletes the row only when it exists
and belongs to the given thread. -/
def pgDeleteItem (s : PgState) (tid iid : String) : PgState :=
  match s.items.find? (fun r => r.id = iid) with
  | none => s
  | some r =>
    if r.threadId = tid then
      { s with items := s.items.filter (fun r2 => ¬ (r2.id = iid)) }
    else s

/-- `PostgresStore.delete_attachment`: deletes the row only when present. -/
def pgDeleteAttachment (s : PgState) (aid : String) : PgState :=
  match s.attachments.find? (fun p => p.1 = aid) with
  | none => s
  | some _ => { s with attachments := s.attachments.filter (fun p => ¬ (p.1 = aid)) }

/-! ## The query compiler (`app/tools/peoplesoft/sql_builder.py`)

`build_sql` is embedded as a pure function into `Except`: a Python
`ValueError` raise becomes `Except.error` with the same message text.
Parameter values (`Any` in Python) are `FValue`: a string or integer scalar,
or a list of scalars (the shapes produced by `FinanceFilter.value`). -/

inductive Scalar where
  | s (v : String)
  | i (v : Int)
deriving DecidableEq, Repr

inductive FValue where
  | scalar (v : Scalar)
  | list (vs : List Scalar)
deriving DecidableEq, Repr

/-- A value of the registry's `field_map`: either a physical column name or
a `{"expression": ...}` mapping whose template is `pre ++ alias ++ post`
(the registry's only template, `"SUM({alias}.POSTED_TOTAL_AMT)"`, mentions
`{alias}` exactly once). -/
inductive FieldMapping where
  | direct (column : String)
  | expression (pre post : String)
deriving DecidableEq, Repr

/-- An entry of the entity's `joins` list. -/
structure JoinSpec where
  typ : String
  table : String
  tblAlias : String
  onConds : List String
  fields : List (String × String)
deriving DecidableEq, Repr

structure EntityCfg where
  table : String
  tblAlias : String
  fieldMap : List (String × FieldMapping)
  joins : List JoinSpec
  defaultFilters : List (String × List FValue)
deriving DecidableEq, Repr

/-- One user filter clause (`{"field": ..., "op": ..., "value": ...}`). -/
structure FilterSpec where
  field : String
  op : String
  value : FValue
deriving DecidableEq, Repr

def lowerChar (c : Char) : Char :=
  if 65 ≤ c.toNat ∧ c.toNat ≤ 90 then Char.ofNat (c.toNat + 32) else c

/-- `str.lower()` (ASCII, which covers entity names). -/
def strLower (s : String) : String :=
  ⟨s.data.map lowerChar⟩

def upperChar (c : Char) : Char :=
  if 97 ≤ c.toNat ∧ c.toNat ≤ 122 then Char.ofNat (c.toNat - 32) else c

/-- `str.upper()` (ASCII, which covers join types). -/
def strUpper (s : String) : String :=
  ⟨s.data.map upperChar⟩

/-- The result of `_get_mapping`: `field_map` entries win over join-exposed
fields, which are wrapped as `{"join_expression": expr}`. -/
inductive ResolvedMapping where
  | direct (column : String)
  | expression (pre post : String)
  | joinExpr (e : String)
deriving DecidableEq, Repr

/-- The `join_field_map` dict: built by iterating joins in order and
assigning each exposed field, so a duplicate logical name is overwritten by
the later join (dict-assignment semantics → last match wins). -/
def joinFieldLookup (joins : List JoinSpec) (field : String) : Option String :=
  ((joins.flatMap (fun j => j.fields)).reverse.find? (fun p => p.1 = field)).map Prod.snd

/-- `_get_mapping`. -/
def getMapping (ent : String) (cfg : EntityCfg) (field : String) :
    Except String ResolvedMapping :=
  match cfg.fieldMap.find? (fun p => p.1 = field) with
  | some (_, FieldMapping.direct c) => Except.ok (ResolvedMapping.direct c)
  | some (_, FieldMapping.expression p q) => Except.ok (ResolvedMapping.expression p q)
  | none =>
    match joinFieldLookup cfg.joins field with
    | some e => Except.ok (ResolvedMapping.joinExpr e)
    | none =>
      Except.error ("Field '" ++ field ++ "' is not available for entity '" ++ ent ++ "'")

/-- `_select_expression`: the rendered expression aliased to the logical
field name. -/
def selectExpression (ent : String) (cfg : EntityCfg) (field : String) :
    Except String String :=
  match getMapping ent cfg field with
  | Except.error e => Except.error e
  | Except.ok (ResolvedMapping.direct c) =>
    Except.ok (cfg.tblAlias ++ "." ++ c ++ " AS " ++ field)
  | Except.ok (ResolvedMapping.expression p q) =>
    Except.ok (p ++ cfg.tblAlias ++ q ++ " AS " ++ field)
  | Except.ok (ResolvedMapping.joinExpr e) => Except.ok (e ++ " AS " ++ field)

/-- `_column_reference`: the bare expression, used by filters, group by and
order by.  (The `purpose` argument only feeds an error message on a mapping
shape that the registry cannot produce, so it is not needed here.) -/
def columnReference (ent : String) (cfg : EntityCfg) (field : String) :
    Except String String :=
  match getMapping ent cfg field with
  | Except.error e => Except.error e
  | Except.ok (ResolvedMapping.direct c) => Except.ok (cfg.tblAlias ++ "." ++ c)
  | Except.ok (ResolvedMapping.expression p q) => Except.ok (p ++ cfg.tblAlias ++ q)
  | Except.ok (ResolvedMapping.joinExpr e) => Except.ok e

/-- The operators of `OP_MAP` (which maps each onto itself). -/
def opAllowed : List String :=
  ["=", "!=", ">", "<", ">=", "<=", "LIKE", "IN", "BETWEEN"]

/-- `MAX_LIMIT`. -/
def MAX_LIMIT : Int := 5000

/-- `eff_limit = min(limit or 1000, MAX_LIMIT)`: Python's `or` treats the
integer `0` like `None`. -/
def effectiveLimit (limit : Option Int) : Int :=
  min (match limit with
       | none => 1000
       | some l => if l = 0 then 1000 else l) MAX_LIMIT

/-- The body of the user-filter loop of `build_sql`: one WHERE clause plus
the bind values it contributes, in order. -/
def compileFilter (ent : String) (cfg : EntityCfg) (flt : FilterSpec) :
    Except String (String × List FValue) :=
  match columnReference ent cfg flt.field with
  | Except.error e => Except.error e
  | Except.ok col =>
  if ¬ (opAllowed.contains flt.op) then
    Except.error ("Unsupported operator '" ++ flt.op ++ "'")
  else if flt.op = "IN" then
    match flt.value with
    | FValue.scalar _ => Except.error "IN operator requires a list value"
    | FValue.list vs =>
      if vs = [] then Except.ok ("1=0", [])
      else
        Except.ok
          (col ++ " IN (" ++ String.intercalate ", " (List.replicate vs.length "%s") ++ ")",
            vs.map FValue.scalar)
  else if flt.op = "BETWEEN" then
    match flt.value with
    | FValue.scalar _ => Except.error "BETWEEN operator requires [low, high]"
    | FValue.list vs =>
      if vs.length = 2 then Except.ok (col ++ " BETWEEN %s AND %s", vs.map FValue.scalar)
      else Except.error "BETWEEN operator requires [low, high]"
  else
    Except.ok (col ++ " " ++ flt.op ++ " %s", [flt.value])

/-- One `JOIN` fragment (with its leading space), as appended by the join
loop of `build_sql`. -/
def joinClause (j : JoinSpec) : String :=
  " " ++ strUpper j.typ ++ " JOIN " ++ j.table ++ " " ++ j.tblAlias ++ " ON " ++
    String.intercalate " AND " j.onConds

/-- `ORDER BY` clause entry: direction defaults are resolved by the caller;
`build_sql` lowercases the direction and emits `DESC`/`ASC`. -/
def orderClause (ent : String) (cfg : EntityCfg) (ob : String × String) :
    Except String String :=
  match columnReference ent cfg ob.1 with
  | Except.error e => Except.error e
  | Except.ok col =>
    Except.ok (col ++ " " ++ (if strLower ob.2 = "desc" then "DESC" else "ASC"))

/-- The entity registry (`app/tools/peoplesoft/entities.py`). -/
def GL_SUMMARY : EntityCfg :=
  { table := "PS_LEDGER"
    tblAlias := "gl"
    fieldMap :=
      [("business_unit", FieldMapping.direct "BUSINESS_UNIT"),
       ("ledger", FieldMapping.direct "LEDGER"),
       ("fiscal_year", FieldMapping.direct "FISCAL_YEAR"),
       ("period", FieldMapping.direct "ACCOUNTING_PERIOD"),
       ("object", FieldMapping.direct "ACCOUNT"),
       ("department", FieldMapping.direct "DEPTID"),
       ("fund", FieldMapping.direct "FUND_CODE"),
       ("resource", FieldMapping.direct "PROGRAM_CODE"),
       ("class", FieldMapping.direct "CLASS_FLD"),
       ("project", FieldMapping.direct "PROJECT_ID"),
       ("amount", FieldMapping.direct "POSTED_TOTAL_AMT"),
       ("amount_sum", FieldMapping.expression "SUM(" ".POSTED_TOTAL_AMT)")]
    joins :=
      [{ typ := "LEFT", table := "PS_GL_ACCOUNT_TBL", tblAlias := "acct"
         onConds :=
           ["acct.SETID = 'SHARE'",
            "acct.ACCOUNT = gl.ACCOUNT",
            "acct.EFF_STATUS = 'A'",
            "acct.EFFDT = (SELECT MAX(A_ED.EFFDT) FROM PS_GL_ACCOUNT_TBL A_ED " ++
              "WHERE A_ED.SETID = acct.SETID " ++
              "AND A_ED.ACCOUNT = acct.ACCOUNT " ++
              "AND A_ED.EFFDT <= CAST(GETDATE() AS DATE))"]
         fields := [("account_descr", "acct.DESCR")] },
       { typ := "LEFT", table := "PS_DEPT_TBL", tblAlias := "dpt"
         onConds :=
           ["dpt.SETID = 'SHARE'",
            "dpt.DEPTID = gl.DEPTID",
            "dpt.EFF_STATUS = 'A'",
            "dpt.EFFDT = (SELECT MAX(A_ED.EFFDT) FROM PS_DEPT_TBL A_ED " ++
              "WHERE A_ED.SETID = dpt.SETID " ++
              "AND A_ED.DEPTID = dpt.DEPTID " ++
              "AND A_ED.EFFDT <= CAST(GETDATE() AS DATE))"]
         fields := [("dept_descr", "dpt.DESCR")] },
       { typ := "LEFT", table := "PS_FUND_TBL", tblAlias := "fnd"
         onConds :=
           ["fnd.SETID = 'SHARE'",
            "fnd.FUND_CODE = gl.FUND_CODE",
            "fnd.EFF_STATUS = 'A'",
            "fnd.EFFDT = (SELECT MAX(A_ED.EFFDT) FROM PS_FUND_TBL A_ED " ++
              "WHERE A_ED.SETID = fnd.SETID " ++
              "AND A_ED.FUND_CODE = fnd.FUND_CODE " ++
              "AND A_ED.EFFDT <= CAST(GETDATE() AS DATE))"]
         fields := [("fund_descr", "fnd.DESCR")] },
       { typ := "LEFT", table := "PS_PROGRAM_TBL", tblAlias := "prg"
         onConds :=
           ["prg.SETID = 'SHARE'",
            "prg.PROGRAM_CODE = gl.PROGRAM_CODE",
            "prg.EFF_STATUS = 'A'",
            "prg.EFFDT = (SELECT MAX(A_ED.EFFDT) FROM PS_PROGRAM_TBL A_ED " ++
              "WHERE A_ED.SETID = prg.SETID " ++
              "AND A_ED.PROGRAM_CODE = prg.PROGRAM_CODE " ++
              "AND A_ED.EFFDT <= CAST(GETDATE() AS DATE))"]
         fields := [("resource_descr", "prg.DESCR")] },
       { typ := "LEFT", table := "PS_OPER_UNIT_TBL", tblAlias := "ou"
         onConds :=
           ["ou.SETID = 'SHARE'",
            "ou.OPERATING_UNIT = gl.OPERATING_UNIT",
            "ou.EFF_STATUS = 'A'",
            "ou.EFFDT = (SELECT MAX(A_ED.EFFDT) FROM PS_OPER_UNIT_TBL A_ED " ++
              "WHERE A_ED.SETID = ou.SETID " ++
              "AND A_ED.OPERATING_UNIT = ou.OPERATING_UNIT " ++
              "AND A_ED.EFFDT <= CAST(GETDATE() AS DATE))"]
         fields := [("site_descr", "ou.DESCR")] },
       { typ := "LEFT", table := "PS_CLASS_CF_TBL", tblAlias := "cls"
         onConds :=
           ["cls.SETID = 'SHARE'",
            "cls.CLASS_FLD = gl.CLASS_FLD",
            "cls.EFF_STATUS = 'A'",
            "cls.EFFDT = (SELECT MAX(A_ED.EFFDT) FROM PS_CLASS_CF_TBL A_ED " ++
              "WHERE A_ED.SETID = cls.SETID " ++
              "AND A_ED.CLASS_FLD = cls.CLASS_FLD " ++
              "AND A_ED.EFFDT <= CAST(GETDATE() AS DATE))"]
         fields := [("class_descr", "cls.DESCR")] },
       { typ := "LEFT", table := "PS_PROJECT", tblAlias := "prj"
         onConds :=
           ["prj.BUSINESS_UNIT = gl.BUSINESS_UNIT",
            "prj.PROJECT_ID = gl.PROJECT_ID"]
         fields := [("project_descr", "prj.DESCR")] }]
    defaultFilters := [("gl.ACCOUNTING_PERIOD NOT IN ('999')", [])] }

def ENTITIES : List (String × EntityCfg) :=
  [("gl_summary", GL_SUMMARY)]

/-- `build_sql` (`app/tools/peoplesoft/sql_builder.py`, lines 18-172). -/
def buildSql (entity : String) (select : List String) (filters : List FilterSpec)
    (limit : Option Int) (orderBy : List (String × String)) (groupBy : List String) :
    Except String (String × List FValue) :=
  let ent := strLower entity
  match ENTITIES.find? (fun p => p.1 = ent) with
  | none => Except.error ("Unknown entity '" ++ ent ++ "'")
  | some pcfg =>
    let cfg := pcfg.2
    let effLimit := effectiveLimit limit
    if select = [] then Except.error "No select columns specified"
    else
      match select.mapM (selectExpression ent cfg) with
      | Except.error e => Except.error e
      | Except.ok columns =>
        let topClause := "TOP " ++ toString effLimit ++ " "
        let sql0 := "SELECT " ++ topClause ++ String.intercalate ", " columns ++
          " FROM " ++ cfg.table ++ " " ++ cfg.tblAlias
        let sql1 := sql0 ++ String.join (cfg.joins.map joinClause)
        let defaultClauses := cfg.defaultFilters.map Prod.fst
        let defaultParams := (cfg.defaultFilters.map Prod.snd).flatten
        match filters.mapM (compileFilter ent cfg) with
        | Except.error e => Except.error e
        | Except.ok userCompiled =>
          let whereClauses := defaultClauses ++ userCompiled.map Prod.fst
          let params := defaultParams ++ (userCompiled.map Prod.snd).flatten
          let sql2 :=
            if whereClauses = [] then sql1
            else sql1 ++ " WHERE " ++ String.intercalate " AND " whereClauses
          match groupBy.mapM (columnReference ent cfg) with
          | Except.error e => Except.error e
          | Except.ok groupCols =>
            let sql3 :=
              if groupCols = [] then sql2
              else sql2 ++ " GROUP BY " ++ String.intercalate ", " groupCols
            match orderBy.mapM (orderClause ent cfg) with
            | Except.error e => Except.error e
            | Except.ok orderCols =>
              let sql4 :=
                if orderCols = [] then sql3
                else sql3 ++ " ORDER BY " ++ String.intercalate ", " orderCols
              Except.ok (sql4, params)

/-! ## The tool wrapper (`app/tools/peoplesoft/tool.py`, `query_ps_finance`)

The wrapper catches only the compiler's `ValueError` (`try`/`except` around
`build_sql`); `run_query` is invoked outside the `try`, so an executor
failure propagates to the caller.  The executor is abstracted as a function
into `Except`: `Except.error` models a raised `ExecutionError`. -/

abbrev ResultRow := List (String × Scalar)

inductive ToolOutput where
  | result (entity : String) (rowCount : Nat) (rows : List ResultRow)
  | failure (error : String)
deriving DecidableEq, Repr

def queryPsFinance (runQuery : String → List FValue → Except String (List ResultRow))
    (entity : String) (select : List String) (filters : List FilterSpec)
    (limit : Option Int) (orderBy : List (String × String)) (groupBy : List String) :
    Except String ToolOutput :=
  match buildSql entity select filters limit orderBy groupBy with
  | Except.error e => Except.ok (ToolOutput.failure e)
  | Except.ok (sql, params) =>
    match runQuery sql params with
    | Except.error e => Except.error e
    | Except.ok rows => Except.ok (ToolOutput.result entity rows.length rows)

deriving instance DecidableEq for Except

/-- Tail-recursive character-list equality, used to evaluate equalities of
long generated SQL strings without deep non-tail recursion. -/
def listEqT : List Char → List Char → Bool
  | [], [] => true
  | a :: as, b :: bs => if a = b then listEqT as bs else false
  | _ :: _, [] => false
  | [], _ :: _ => false

/-- Tail-recursively checkable equality of compiler outputs. -/
def outEq : Except String (String × List FValue) → Except String (String × List FValue) → Bool
  | Except.ok (s1, p1), Except.ok (s2, p2) => listEqT s1.data s2.data && decide (p1 = p2)
  | Except.error e1, Except.error e2 => listEqT e1.data e2.data
  | Except.ok _, Except.error _ => false
  | Except.error _, Except.ok _ => false

/-! ## Concrete scenario data for the registry claims -/

/-- The request of the spec's `gl_summary` scenario:
`select=[fiscal_year, department, amount]`. -/
def c4Select : List String :=
  ["fiscal_year", "department", "amount"]

/-- `filters=[{fiscal_year,"=",2024},{department,"=","5500"}]`. -/
def c4Filters : List FilterSpec :=
  [⟨"fiscal_year", "=", FValue.scalar (Scalar.i 2024)⟩,
   ⟨"department", "=", FValue.scalar (Scalar.s "5500")⟩]

/-- The parameter list `[2024, "5500"]`. -/
def c4Params : List FValue :=
  [FValue.scalar (Scalar.i 2024), FValue.scalar (Scalar.s "5500")]

/-- Everything the compiler emits for that request after `"SELECT TOP 10 "`:
the aliased select expressions, the seven unconditionally emitted joins of
`gl_summary`, and the WHERE clause opened by the default filter, with `%s`
placeholders. -/
def c4SqlBody : String :=
  "gl.FISCAL_YEAR AS fiscal_year, gl.DEPTID AS department, gl.POSTED_TOTAL_AMT AS amount " ++
  "FROM PS_LEDGER gl LEFT JOIN PS_GL_ACCOUNT_TBL acct ON acct.SETID = 'SHARE' AND " ++
  "acct.ACCOUNT = gl.ACCOUNT AND acct.EFF_STATUS = 'A' AND acct.EFFDT = (SELECT " ++
  "MAX(A_ED.EFFDT) FROM PS_GL_ACCOUNT_TBL A_ED WHERE A_ED.SETID = acct.SETID AND " ++
  "A_ED.ACCOUNT = acct.ACCOUNT AND A_ED.EFFDT <= CAST(GETDATE() AS DATE)) LEFT JOIN " ++
  "PS_DEPT_TBL dpt ON dpt.SETID = 'SHARE' AND dpt.DEPTID = gl.DEPTID AND dpt.EFF_STATUS = " ++
  "'A' AND dpt.EFFDT = (SELECT MAX(A_ED.EFFDT) FROM PS_DEPT_TBL A_ED WHERE A_ED.SETID = " ++
  "dpt.SETID AND A_ED.DEPTID = dpt.DEPTID AND A_ED.EFFDT <= CAST(GETDATE() AS DATE)) LEFT " ++
  "JOIN PS_FUND_TBL fnd ON fnd.SETID = 'SHARE' AND fnd.FUND_CODE = gl.FUND_CODE AND " ++
  "fnd.EFF_STATUS = 'A' AND fnd.EFFDT = (SELECT MAX(A_ED.EFFDT) FROM PS_FUND_TBL A_ED WHERE " ++
  "A_ED.SETID = fnd.SETID AND A_ED.FUND_CODE = fnd.FUND_CODE AND A_ED.EFFDT <= " ++
  "CAST(GETDATE() AS DATE)) LEFT JOIN PS_PROGRAM_TBL prg ON prg.SETID = 'SHARE' AND " ++
  "prg.PROGRAM_CODE = gl.PROGRAM_CODE AND prg.EFF_STATUS = 'A' AND prg.EFFDT = (SELECT " ++
  "MAX(A_ED.EFFDT) FROM PS_PROGRAM_TBL A_ED WHERE A_ED.SETID = prg.SETID AND " ++
  "A_ED.PROGRAM_CODE = prg.PROGRAM_CODE AND A_ED.EFFDT <= CAST(GETDATE() AS DATE)) LEFT " ++
  "JOIN PS_OPER_UNIT_TBL ou ON ou.SETID = 'SHARE' AND ou.OPERATING_UNIT = gl.OPERATING_UNIT " ++
  "AND ou.EFF_STATUS = 'A' AND ou.EFFDT = (SELECT MAX(A_ED.EFFDT) FROM PS_OPER_UNIT_TBL " ++
  "A_ED WHERE A_ED.SETID = ou.SETID AND A_ED.OPERATING_UNIT = ou.OPERATING_UNIT AND " ++
  "A_ED.EFFDT <= CAST(GETDATE() AS DATE)) LEFT JOIN PS_CLASS_CF_TBL cls ON cls.SETID = " ++
  "'SHARE' AND cls.CLASS_FLD = gl.CLASS_FLD AND cls.EFF_STATUS = 'A' AND cls.EFFDT = " ++
  "(SELECT MAX(A_ED.EFFDT) FROM PS_CLASS_CF_TBL A_ED WHERE A_ED.SETID = cls.SETID AND " ++
  "A_ED.CLASS_FLD = cls.CLASS_FLD AND A_ED.EFFDT <= CAST(GETDATE() AS DATE)) LEFT JOIN " ++
  "PS_PROJECT prj ON prj.BUSINESS_UNIT = gl.BUSINESS_UNIT AND prj.PROJECT_ID = " ++
  "gl.PROJECT_ID WHERE gl.ACCOUNTING_PERIOD NOT IN ('999') AND gl.FISCAL_YEAR = %s AND " ++
  "gl.DEPTID = %s"

/-- The SQL text the spec's scenario claims (no joins, no default filter,
`?` placeholders). -/
def c4ClaimedSql : String :=
  "SELECT TOP 10 gl.FISCAL_YEAR AS fiscal_year, gl.DEPTID AS department, " ++
  "gl.POSTED_TOTAL_AMT AS amount FROM PS_LEDGER gl WHERE gl.FISCAL_YEAR = ? " ++
  "AND gl.DEPTID = ?"

/-- A query request bundled as one value (used to state determinism). -/
structure QueryRequest where
  entity : String
  select : List String
  filters : List FilterSpec
  limit : Option Int
  orderBy : List (String × String)
  groupBy : List String
deriving DecidableEq, Repr

def buildSqlReq (r : QueryRequest) : Except String (String × List FValue) :=
  buildSql r.entity r.select r.filters r.limit r.orderBy r.groupBy

/-! ## Supporting lemmas -/

theorem charsLt_asymm : ∀ (a b : List Char), charsLt a b = true → charsLt b a = false := by
  intro a
  induction a with
  | nil =>
    intro b h
    cases b with
    | nil => simp [charsLt] at h
    | cons d ds => simp [charsLt]
  | cons c cs ih =>
    intro b h
    cases b with
    | nil => simp [charsLt] at h
    | cons d ds =>
      by_cases h1 : c < d
      · have h2 : ¬ d < c := lt_asymm h1
        simp [charsLt, h1, h2]
      · by_cases h2 : d < c
        · simp [charsLt, h1, h2] at h
        · simp only [charsLt, h1, h2, if_false] at h ⊢
          exact ih ds h

theorem charsLt_trans :
    ∀ (a b c : List Char), charsLt a b = true → charsLt b c = true → charsLt a c = true := by
  intro a
  induction a with
  | nil =>
    intro b c hab hbc
    cases c with
    | nil =>
      cases b with
      | nil => simp [charsLt] at hab
      | cons d ds => simp [charsLt] at hbc
    | cons e es => simp [charsLt]
  | cons x xs ih =>
    intro b c hab hbc
    cases b with
    | nil => simp [charsLt] at hab
    | cons y ys =>
      cases c with
      | nil => simp [charsLt] at hbc
      | cons z zs =>
        by_cases hxy : x < y
        · by_cases hyz : y < z
          · have hxz : x < z := lt_trans hxy hyz
            simp [charsLt, hxz]
          · by_cases hzy : z < y
            · simp [charsLt, hyz, hzy] at hbc
            · have hyez : y = z := le_antisymm (not_lt.mp hzy) (not_lt.mp hyz)
              subst hyez
              simp [charsLt, hxy]
        · by_cases hyx : y < x
          · simp [charsLt, hxy, hyx] at hab
          · have hxey : x = y := le_antisymm (not_lt.mp hyx) (not_lt.mp hxy)
            subst hxey
            simp only [charsLt, lt_self_iff_false, if_false, ite_self] at hab
            by_cases hxz : x < z
            · simp [charsLt, hxz]
            · by_cases hzx : z < x
              · simp [charsLt, hxz, hzx] at hbc
              · simp only [charsLt, hxz, hzx, if_false] at hbc ⊢
                exact ih ys zs hab hbc

theorem charsLt_connex :
    ∀ (a b : List Char), charsLt a b = false → charsLt b a = false → a = b := by
  intro a
  induction a with
  | nil =>
    intro b h1 h2
    cases b with
    | nil => rfl
    | cons d ds => simp [charsLt] at h1
  | cons c cs ih =>
    intro b h1 h2
    cases b with
    | nil => simp [charsLt] at h2
    | cons d ds =>
      by_cases hcd : c < d
      · simp [charsLt, hcd] at h1
      · by_cases hdc : d < c
        · simp [charsLt, hdc, lt_asymm hdc] at h2
        · have hce : c = d := le_antisymm (not_lt.mp hdc) (not_lt.mp hcd)
          subst hce
          simp only [charsLt, lt_self_iff_false, if_false, ite_self] at h1 h2
          rw [ih ds h1 h2]

theorem strLeb_total (a b : String) : strLeb a b = true ∨ strLeb b a = true := by
  by_cases h : charsLt b.data a.data = true
  · right
    simp only [strLeb, strLtb, Bool.not_eq_true']
    exact charsLt_asymm _ _ h
  · left
    simp only [strLeb, strLtb, Bool.not_eq_true']
    exact Bool.not_eq_true _ ▸ (Bool.eq_false_iff.mpr h)

theorem strLeb_trans (a b c : String) (h1 : strLeb a b = true) (h2 : strLeb b c = true) :
    strLeb a c = true := by
  simp only [strLeb, strLtb, Bool.not_eq_true'] at h1 h2 ⊢
  by_contra hca
  have hca' : charsLt c.data a.data = true := by
    cases h : charsLt c.data a.data
    · exact absurd h hca
    · rfl
  rcases lt_trichotomy 0 0 with _ | _ | _
  all_goals {
    by_cases hba : charsLt b.data a.data = true
    · rw [hba] at h1; exact absurd h1 (by simp)
    · by_cases hab : charsLt a.data b.data = true
      · have : charsLt c.data b.data = true := charsLt_trans _ _ _ hca' hab
        rw [this] at h2; exact absurd h2 (by simp)
      · have hab' : charsLt a.data b.data = false := by
          cases h : charsLt a.data b.data
          · rfl
          · exact absurd h hab
        have hba' : charsLt b.data a.data = false := by
          cases h : charsLt b.data a.data
          · rfl
          · exact absurd h hba
        have : a.data = b.data := charsLt_connex _ _ hab' hba'
        rw [this] at hca'
        rw [hca'] at h2
        exact absurd h2 (by simp) }

theorem strLeb_antisymm (a b : String) (h1 : strLeb a b = true) (h2 : strLeb b a = true) :
    a = b := by
  simp only [strLeb, strLtb, Bool.not_eq_true'] at h1 h2
  have hdata : a.data = b.data := charsLt_connex _ _ h2 h1
  exact congrArg String.mk hdata

theorem charsLt_irrefl : ∀ (a : List Char), charsLt a a = false := by
  intro a
  induction a with
  | nil => simp [charsLt]
  | cons c cs ih => simp [charsLt, ih]

theorem tupLt_irrefl (k : Nat × String) : tupLt k k = false := by
  simp [tupLt, strLtb, charsLt_irrefl]

theorem tupLt_asymm (k1 k2 : Nat × String) (h : tupLt k1 k2 = true) : tupLt k2 k1 = false := by
  cases hc : tupLt k2 k1
  · rfl
  · exfalso
    simp only [tupLt, Bool.or_eq_true, Bool.and_eq_true, decide_eq_true_eq] at h hc
    rcases h with h | ⟨he, hl⟩ <;> rcases hc with h' | ⟨he', hl'⟩
    · omega
    · omega
    · omega
    · have h1 : charsLt k1.2.data k2.2.data = true := hl
      have h2 : charsLt k2.2.data k1.2.data = true := hl'
      have h3 := charsLt_asymm _ _ h1
      rw [h3] at h2
      cases h2

theorem scanIdx_eq_none {α : Type} (p : α → Bool) :
    ∀ (l : List α), scanIdx p l = none ↔ ∀ a ∈ l, p a = false := by
  intro l
  induction l with
  | nil => simp [scanIdx]
  | cons a as ih =>
    by_cases h : p a = true
    · simp [scanIdx, h]
    · have h' : p a = false := Bool.eq_false_iff.mpr h
      simp [scanIdx, h', ih]

/-- In a list with pairwise-distinct keys, scanning for the key of the `i`-th
element finds exactly index `i`. -/
theorem scanIdx_of_nodup_key {α β : Type} [DecidableEq β] (key : α → β) :
    ∀ (s : List α) (i : Nat) (hi : i < s.length), (s.map key).Nodup →
      scanIdx (fun r => key r = key (s.get ⟨i, hi⟩)) s = some i := by
  intro s
  induction s with
  | nil => intro i hi; simp at hi
  | cons c cs ih =>
    intro i hi hnodup
    rw [List.map_cons, List.nodup_cons] at hnodup
    cases i with
    | zero =>
      simp [scanIdx]
    | succ j =>
      have hj : j < cs.length := by simpa using hi
      have hget : (c :: cs).get ⟨j + 1, hi⟩ = cs.get ⟨j, hj⟩ := rfl
      rw [hget]
      have hne : ¬ (key c = key (cs.get ⟨j, hj⟩)) := by
        intro habs
        exact hnodup.1 (habs ▸ List.mem_map_of_mem key (cs.get_mem j hj))
      simp only [scanIdx, hne, decide_eq_false hne, Bool.false_eq_true, if_false]
      rw [ih j hj hnodup.2]
      rfl

/-- Two lists that are permutations of each other and both sorted under a
relation antisymmetric on the members of the first are equal. -/
theorem sorted_perm_eq {α : Type} {le : α → α → Bool} :
    ∀ {l₁ l₂ : List α},
      (∀ a ∈ l₁, ∀ b ∈ l₁, le a b = true → le b a = true → a = b) →
      l₁.Perm l₂ →
      l₁.Pairwise (fun a b => le a b = true) →
      l₂.Pairwise (fun a b => le a b = true) →
      l₁ = l₂ := by
  intro l₁
  induction l₁ with
  | nil =>
    intro l₂ _ hp _ _
    exact (hp.symm.eq_nil).symm
  | cons a as ih =>
    intro l₂ anti hp h1 h2
    cases l₂ with
    | nil => exact absurd hp.eq_nil (by simp)
    | cons b bs =>
      have hmem_a : a ∈ b :: bs := hp.mem_iff.mp (List.mem_cons_self a as)
      have hmem_b : b ∈ a :: as := hp.symm.mem_iff.mp (List.mem_cons_self b bs)
      have hab : a = b := by
        rcases List.mem_cons.mp hmem_a with h | ha_bs
        · exact h
        · rcases List.mem_cons.mp hmem_b with h | hb_as
          · exact h.symm
          · have hle_ba : le b a = true := (List.pairwise_cons.mp h2).1 a ha_bs
            have hle_ab : le a b = true := (List.pairwise_cons.mp h1).1 b hb_as
            exact anti a (List.mem_cons_self a as) b (List.mem_cons.mpr (Or.inr hb_as))
              hle_ab hle_ba
      subst hab
      have hptail : as.Perm bs := hp.cons_inv
      have anti' : ∀ x ∈ as, ∀ y ∈ as, le x y = true → le y x = true → x = y := by
        intro x hx y hy
        exact anti x (List.mem_cons.mpr (Or.inr hx)) y (List.mem_cons.mpr (Or.inr hy))
      rw [ih anti' hptail (List.pairwise_cons.mp h1).2 (List.pairwise_cons.mp h2).2]

/-- Filtering a strictly sorted list by "strictly past the `i`-th element"
yields precisely the suffix after position `i`. -/
theorem filter_strict_sorted_drop {α : Type} {R : α → α → Bool}
    (hasymm : ∀ a b, R a b = true → R b a = false)
    (hirr : ∀ a, R a a = false) :
    ∀ (u : List α) (i : Nat) (hi : i < u.length),
      u.Pairwise (fun a b => R a b = true) →
      u.filter (fun r => R (u.get ⟨i, hi⟩) r) = u.drop (i + 1) := by
  intro u
  induction u with
  | nil => intro i hi; simp at hi
  | cons c cs ih =>
    intro i hi hpair
    cases i with
    | zero =>
      have hhead : (c :: cs).get ⟨0, hi⟩ = c := rfl
      rw [hhead]
      simp only [List.filter_cons, hirr c, if_false, List.drop_succ_cons, List.drop_zero]
      exact List.filter_eq_self.mpr (fun a ha => (List.pairwise_cons.mp hpair).1 a ha)
    | succ j =>
      have hj : j < cs.length := by simpa using hi
      have hget : (c :: cs).get ⟨j + 1, hi⟩ = cs.get ⟨j, hj⟩ := rfl
      rw [hget]
      have hcp : R c (cs.get ⟨j, hj⟩) = true :=
        (List.pairwise_cons.mp hpair).1 _ (cs.get_mem j hj)
      have hpc : R (cs.get ⟨j, hj⟩) c = false := hasymm _ _ hcp
      simp only [List.filter_cons, hpc, if_false, List.drop_succ_cons]
      exact ih j hj (List.pairwise_cons.mp hpair).2

/-! ## Stable sort lemmas -/

theorem mem_insertLe {α : Type} (le : α → α → Bool) (x a : α) :
    ∀ (l : List α), a ∈ insertLe le x l ↔ a = x ∨ a ∈ l := by
  intro l
  induction l with
  | nil => simp [insertLe]
  | cons y ys ih =>
    by_cases h : le x y = true
    · simp [insertLe, h]
    · have h' : le x y = false := Bool.eq_false_iff.mpr h
      simp only [insertLe, h', Bool.false_eq_true, if_false, List.mem_cons, ih]
      tauto

theorem insertLe_perm {α : Type} (le : α → α → Bool) (x : α) :
    ∀ (l : List α), (insertLe le x l).Perm (x :: l) := by
  intro l
  induction l with
  | nil => simp [insertLe]
  | cons y ys ih =>
    by_cases h : le x y = true
    · simp [insertLe, h, List.Perm.refl]
    · have h' : le x y = false := Bool.eq_false_iff.mpr h
      simp only [insertLe, h', Bool.false_eq_true, if_false]
      exact List.Perm.trans (List.Perm.cons y ih) (List.Perm.swap x y ys)

theorem sortLe_perm {α : Type} (le : α → α → Bool) :
    ∀ (l : List α), (sortLe le l).Perm l := by
  intro l
  induction l with
  | nil => exact List.Perm.refl _
  | cons x xs ih =>
    exact List.Perm.trans (insertLe_perm le x (sortLe le xs)) (List.Perm.cons x ih)

theorem insertLe_pairwise {α : Type} {le : α → α → Bool}
    (htrans : ∀ a b c, le a b = true → le b c = true → le a c = true)
    (htotal : ∀ a b, le a b = true ∨ le b a = true) (x : α) :
    ∀ (l : List α), l.Pairwise (fun a b => le a b = true) →
      (insertLe le x l).Pairwise (fun a b => le a b = true) := by
  intro l
  induction l with
  | nil => intro _; simp [insertLe]
  | cons y ys ih =>
    intro hp
    obtain ⟨hy, hys⟩ := List.pairwise_cons.mp hp
    by_cases h : le x y = true
    · simp only [insertLe, h, if_true]
      refine List.pairwise_cons.mpr ⟨?_, hp⟩
      intro b hb
      rcases List.mem_cons.mp hb with hb | hb
      · rw [hb]; exact h
      · exact htrans x y b h (hy b hb)
    · have h' : le x y = false := Bool.eq_false_iff.mpr h
      have hyx : le y x = true := (htotal x y).resolve_left h
      simp only [insertLe, h', Bool.false_eq_true, if_false]
      refine List.pairwise_cons.mpr ⟨?_, ih hys⟩
      intro b hb
      rcases (mem_insertLe le x b ys).mp hb with hb | hb
      · rw [hb]; exact hyx
      · exact hy b hb

theorem sortLe_pairwise {α : Type} {le : α → α → Bool}
    (htrans : ∀ a b c, le a b = true → le b c = true → le a c = true)
    (htotal : ∀ a b, le a b = true ∨ le b a = true) :
    ∀ (l : List α), (sortLe le l).Pairwise (fun a b => le a b = true) := by
  intro l
  induction l with
  | nil => simp [sortLe]
  | cons x xs ih => exact insertLe_pairwise htrans htotal x (sortLe le xs) ih

/-! ## Comparator lemmas -/

theorem memLe_total (desc : Bool) (a b : ThreadItem) :
    memLe desc a b = true ∨ memLe desc b a = true := by
  cases desc <;> simp [memLe] <;> omega

theorem memLe_trans (desc : Bool) (a b c : ThreadItem)
    (h1 : memLe desc a b = true) (h2 : memLe desc b c = true) : memLe desc a c = true := by
  cases desc <;> simp [memLe] at h1 h2 ⊢ <;> omega

theorem rowLe_total (desc : Bool) (a b : ThreadItemRowT) :
    rowLe desc a b = true ∨ rowLe desc b a = true := by
  by_cases hc : a.createdAt = b.createdAt
  · have hcs : b.createdAt = a.createdAt := hc.symm
    rw [rowLe, if_pos hc, rowLe, if_pos hcs]
    exact strLeb_total a.id b.id
  · have hc' : ¬ b.createdAt = a.createdAt := fun h => hc h.symm
    rw [rowLe, if_neg hc, rowLe, if_neg hc']
    cases desc <;> simp <;> omega

theorem rowLe_trans (desc : Bool) (a b c : ThreadItemRowT)
    (h1 : rowLe desc a b = true) (h2 : rowLe desc b c = true) : rowLe desc a c = true := by
  by_cases hab : a.createdAt = b.createdAt <;> by_cases hbc : b.createdAt = c.createdAt
  · have hac : a.createdAt = c.createdAt := hab.trans hbc
    rw [rowLe, if_pos hab] at h1
    rw [rowLe, if_pos hbc] at h2
    rw [rowLe, if_pos hac]
    exact strLeb_trans _ _ _ h1 h2
  · have hac : ¬ a.createdAt = c.createdAt := by rw [hab]; exact hbc
    rw [rowLe, if_neg hbc] at h2
    rw [rowLe, if_neg hac]
    cases desc <;> simp at h2 ⊢ <;> omega
  · have hac : ¬ a.createdAt = c.createdAt := fun h => hab (h.trans hbc.symm)
    rw [rowLe, if_neg hab] at h1
    rw [rowLe, if_neg hac]
    cases desc <;> simp at h1 ⊢ <;> omega
  · rw [rowLe, if_neg hab] at h1
    rw [rowLe, if_neg hbc] at h2
    by_cases hac : a.createdAt = c.createdAt
    · cases desc <;> simp at h1 h2 <;> omega
    · rw [rowLe, if_neg hac]
      cases desc <;> simp at h1 h2 ⊢ <;> omega

theorem memLe_of_rowLe {desc : Bool} {r1 r2 : ThreadItemRowT}
    (h : rowLe desc r1 r2 = true)
    (h1 : r1.item.createdAt = r1.createdAt) (h2 : r2.item.createdAt = r2.createdAt) :
    memLe desc r1.item r2.item = true := by
  by_cases hc : r1.createdAt = r2.createdAt
  · cases desc <;> simp [memLe, h1, h2, hc]
  · rw [rowLe, if_neg hc] at h
    cases desc <;> simp at h <;> simp [memLe, h1, h2] <;> omega

/-- The strict keyset order from the non-strict sort order and distinct
keys; in the descending direction the keyset predicate disagrees with the
`id ASC` tie-break, so distinct `createdAt` values are required there. -/
theorem rowAfterB_of_rowLe {desc : Bool} {r1 r2 : ThreadItemRowT}
    (h : rowLe desc r1 r2 = true) (hkey : rkey r1 ≠ rkey r2)
    (hdir : desc = false ∨ r1.createdAt ≠ r2.createdAt) :
    rowAfterB desc r1 r2 = true := by
  by_cases hc : r1.createdAt = r2.createdAt
  · have hdesc : desc = false := by
      rcases hdir with hd | hd
      · exact hd
      · exact absurd hc hd
    subst hdesc
    rw [rowLe, if_pos hc] at h
    have hidne : r1.id ≠ r2.id := by
      intro hi
      exact hkey (by simp [rkey, hc, hi])
    have hlt : strLtb r1.id r2.id = true := by
      simp only [strLeb, Bool.not_eq_true'] at h
      cases hx : charsLt r1.id.data r2.id.data
      · exact absurd (congrArg String.mk (charsLt_connex _ _ hx h)) hidne
      · exact hx
    simp [rowAfterB, tupLt, rkey, hc, hlt]
  · rw [rowLe, if_neg hc] at h
    cases desc <;> simp at h <;> simp [rowAfterB, tupLt, rkey, h]

theorem rowAfterB_irrefl (desc : Bool) (a : ThreadItemRowT) :
    rowAfterB desc a a = false := by
  cases desc <;> simp [rowAfterB, tupLt_irrefl]

theorem rowAfterB_asymm (desc : Bool) (a b : ThreadItemRowT)
    (h : rowAfterB desc a b = true) : rowAfterB desc b a = false := by
  cases desc
  · rw [rowAfterB, if_neg (by simp : ¬ (false = true))] at h
    rw [rowAfterB, if_neg (by simp : ¬ (false = true))]
    exact tupLt_asymm _ _ h
  · rw [rowAfterB, if_pos rfl] at h
    rw [rowAfterB, if_pos rfl]
    exact tupLt_asymm _ _ h

/-! ## Store pagination lemmas -/

theorem mem_rowsOf {tid : String} {l : List ThreadItem} {r : ThreadItemRowT}
    (hr : r ∈ rowsOf tid l) :
    r.threadId = tid ∧ r.item ∈ l ∧ r.id = r.item.id ∧ r.createdAt = r.item.createdAt := by
  obtain ⟨it, hit, rfl⟩ := List.mem_map.mp hr
  exact ⟨rfl, hit, rfl, rfl⟩

theorem map_item_rowsOf (tid : String) : ∀ (l : List ThreadItem),
    (rowsOf tid l).map (fun r => r.item) = l := by
  intro l
  induction l with
  | nil => rfl
  | cons x xs ih =>
    simp only [rowsOf, List.map_cons] at ih ⊢
    rw [ih]

theorem map_id_rowsOf (tid : String) (l : List ThreadItem) :
    (rowsOf tid l).map (fun r => r.id) = l.map (fun it => it.id) := by
  rw [rowsOf, List.map_map]
  rfl

theorem map_rkey_rowsOf (tid : String) (l : List ThreadItem) :
    (rowsOf tid l).map rkey = l.map (fun it => (it.createdAt, it.id)) := by
  rw [rowsOf, List.map_map]
  rfl

theorem rowsOf_filter_tid (tid : String) (l : List ThreadItem) :
    (rowsOf tid l).filter (fun r => r.threadId = tid) = rowsOf tid l := by
  apply List.filter_eq_self.mpr
  intro r hr
  simp [(mem_rowsOf hr).1]

theorem memSorted_perm (desc : Bool) (l : List ThreadItem) :
    (memSorted desc l).Perm l :=
  sortLe_perm (memLe desc) l

theorem memSorted_pairwise (desc : Bool) (l : List ThreadItem) :
    (memSorted desc l).Pairwise (fun a b => memLe desc a b = true) :=
  sortLe_pairwise (memLe_trans desc) (memLe_total desc) l

theorem pgSorted_perm (desc : Bool) (q : List ThreadItemRowT) :
    (pgSortedRows desc q).Perm q :=
  sortLe_perm (rowLe desc) q

theorem pgSorted_pairwise (desc : Bool) (q : List ThreadItemRowT) :
    (pgSortedRows desc q).Pairwise (fun a b => rowLe desc a b = true) :=
  sortLe_pairwise (rowLe_trans desc) (rowLe_total desc) q

theorem memSorted_length (desc : Bool) (l : List ThreadItem) :
    (memSorted desc l).length = l.length :=
  (memSorted_perm desc l).length_eq

theorem pgSorted_length (desc : Bool) (q : List ThreadItemRowT) :
    (pgSortedRows desc q).length = q.length :=
  (pgSorted_perm desc q).length_eq

theorem rowLe_anti_of_ids {desc : Bool} {q : List ThreadItemRowT}
    (hids : (q.map (fun r => r.id)).Nodup) :
    ∀ a ∈ q, ∀ b ∈ q, rowLe desc a b = true → rowLe desc b a = true → a = b := by
  intro a ha b hb h1 h2
  by_cases hc : a.createdAt = b.createdAt
  · rw [rowLe, if_pos hc] at h1
    rw [rowLe, if_pos hc.symm] at h2
    exact List.inj_on_of_nodup_map hids ha hb (strLeb_antisymm _ _ h1 h2)
  · rw [rowLe, if_neg hc] at h1
    rw [rowLe, if_neg (fun h => hc h.symm)] at h2
    cases desc <;> simp at h1 h2 <;> omega

theorem memLe_anti_of_createdAt {desc : Bool} {l : List ThreadItem}
    (hcre : (l.map (fun it => it.createdAt)).Nodup) :
    ∀ a ∈ l, ∀ b ∈ l, memLe desc a b = true → memLe desc b a = true → a = b := by
  intro a ha b hb h1 h2
  have hc : a.createdAt = b.createdAt := by
    cases desc <;> simp [memLe] at h1 h2 <;> omega
  exact List.inj_on_of_nodup_map hcre ha hb hc

/-- The in-memory sorted item list is the item projection of the relational
sorted row list, provided the `createdAt` values are distinct (ties are
ordered by insertion in memory but by `id` in SQL). -/
theorem memSorted_eq_pgSorted_map (desc : Bool) (tid : String) (l : List ThreadItem)
    (hcre : (l.map (fun it => it.createdAt)).Nodup) :
    memSorted desc l = (pgSortedRows desc (rowsOf tid l)).map (fun r => r.item) := by
  apply @sorted_perm_eq ThreadItem (memLe desc)
  · intro a ha b hb
    exact memLe_anti_of_createdAt hcre a ((memSorted_perm desc l).mem_iff.mp ha) b
      ((memSorted_perm desc l).mem_iff.mp hb)
  · have h3 : l.Perm ((pgSortedRows desc (rowsOf tid l)).map (fun r => r.item)) := by
      nth_rewrite 1 [← map_item_rowsOf tid l]
      exact (List.Perm.map (fun r => r.item) (pgSorted_perm desc (rowsOf tid l))).symm
    exact (memSorted_perm desc l).trans h3
  · exact memSorted_pairwise desc l
  · rw [List.pairwise_map]
    refine List.Pairwise.imp_of_mem ?_ (pgSorted_pairwise desc (rowsOf tid l))
    intro r1 r2 hr1 hr2 hle
    have hm1 := mem_rowsOf ((pgSorted_perm desc (rowsOf tid l)).mem_iff.mp hr1)
    have hm2 := mem_rowsOf ((pgSorted_perm desc (rowsOf tid l)).mem_iff.mp hr2)
    exact memLe_of_rowLe hle hm1.2.2.2.symm hm2.2.2.2.symm

/-- Under unique ids (and, for `desc`, distinct `createdAt`), the sorted
relational row list is strictly ordered by the keyset predicate. -/
theorem pgSorted_strict (desc : Bool) (tid : String) (l : List ThreadItem)
    (hids : (l.map (fun it => it.id)).Nodup)
    (hdir : desc = false ∨ (l.map (fun it => it.createdAt)).Nodup) :
    (pgSortedRows desc (rowsOf tid l)).Pairwise
      (fun a b => rowAfterB desc a b = true) := by
  have hperm := pgSorted_perm desc (rowsOf tid l)
  have hpw := pgSorted_pairwise desc (rowsOf tid l)
  have hkeys : ((pgSortedRows desc (rowsOf tid l)).map rkey).Nodup := by
    rw [List.Perm.nodup_iff (List.Perm.map rkey hperm)]
    rw [map_rkey_rowsOf]
    have hcomp : (l.map (fun it => (it.createdAt, it.id))).map Prod.snd =
        l.map (fun it => it.id) := by
      rw [List.map_map]; rfl
    exact List.Nodup.of_map Prod.snd (by rw [hcomp]; exact hids)
  have hkne : (pgSortedRows desc (rowsOf tid l)).Pairwise
      (fun a b => rkey a ≠ rkey b) := List.pairwise_map.mp hkeys
  rcases hdir with hd | hd
  · subst hd
    refine List.Pairwise.imp ?_ (hpw.and hkne)
    intro a b hab
    exact rowAfterB_of_rowLe hab.1 hab.2 (Or.inl rfl)
  · have hcats : ((pgSortedRows desc (rowsOf tid l)).map
        (fun r => r.createdAt)).Nodup := by
      rw [List.Perm.nodup_iff (List.Perm.map (fun r => r.createdAt) hperm)]
      have : (rowsOf tid l).map (fun r => r.createdAt) =
          l.map (fun it => it.createdAt) := by
        rw [rowsOf, List.map_map]; rfl
      rw [this]; exact hd
    have hcne : (pgSortedRows desc (rowsOf tid l)).Pairwise
        (fun a b => a.createdAt ≠ b.createdAt) := List.pairwise_map.mp hcats
    refine List.Pairwise.imp ?_ ((hpw.and hkne).and hcne)
    intro a b hab
    exact rowAfterB_of_rowLe hab.1.1 hab.1.2 (Or.inr hab.2)

/-- Sorting commutes with filtering (for lists with unique ids). -/
theorem pgSorted_filter_comm (desc : Bool) (q : List ThreadItemRowT)
    (hids : (q.map (fun r => r.id)).Nodup) (p : ThreadItemRowT → Bool) :
    pgSortedRows desc (q.filter p) = (pgSortedRows desc q).filter p := by
  apply @sorted_perm_eq ThreadItemRowT (rowLe desc)
  · intro a ha b hb
    exact rowLe_anti_of_ids hids a
      (List.mem_of_mem_filter ((pgSorted_perm desc (q.filter p)).mem_iff.mp ha)) b
      (List.mem_of_mem_filter ((pgSorted_perm desc (q.filter p)).mem_iff.mp hb))
  · exact (pgSorted_perm desc (q.filter p)).trans
      (List.Perm.filter p (pgSorted_perm desc q)).symm
  · exact pgSorted_pairwise desc (q.filter p)
  · exact List.Pairwise.filter p (pgSorted_pairwise desc q)

/-- The keyset filter against the `i`-th row of the sorted list selects
exactly the suffix past position `i`. -/
theorem pg_filter_drop (desc : Bool) (tid : String) (l : List ThreadItem)
    (hids : (l.map (fun it => it.id)).Nodup)
    (hdir : desc = false ∨ (l.map (fun it => it.createdAt)).Nodup)
    (i : Nat) (hi : i < (pgSortedRows desc (rowsOf tid l)).length) :
    (pgSortedRows desc (rowsOf tid l)).filter
        (fun r => rowAfterB desc ((pgSortedRows desc (rowsOf tid l)).get ⟨i, hi⟩) r) =
      (pgSortedRows desc (rowsOf tid l)).drop (i + 1) :=
  filter_strict_sorted_drop (rowAfterB_asymm desc) (rowAfterB_irrefl desc) _ i hi
    (pgSorted_strict desc tid l hids hdir)

/-- First match by key finds a given member when keys are unique. -/
theorem find?_key_of_nodup {α β : Type} [DecidableEq β] (key : α → β) :
    ∀ (l : List α) (x : α), (l.map key).Nodup → x ∈ l →
      l.find? (fun r => key r = key x) = some x := by
  intro l
  induction l with
  | nil => intro x _ hx; simp at hx
  | cons y ys ih =>
    intro x hnodup hx
    rw [List.map_cons, List.nodup_cons] at hnodup
    by_cases hxy : x = y
    · subst hxy
      simp [List.find?]
    · have hx' : x ∈ ys := (List.mem_cons.mp hx).resolve_left hxy
      have hne : ¬ (key y = key x) := by
        intro habs
        exact hnodup.1 (habs ▸ List.mem_map_of_mem key hx')
      simp only [List.find?, decide_eq_false hne]
      exact ih x hnodup.2 hx'

theorem getLast?_take_drop {α : Type} (s : List α) (i L : Nat) (hL : 1 ≤ L)
    (h : i + L ≤ s.length) :
    ((s.drop i).take L).getLast? = s[i + L - 1]? := by
  rw [List.getLast?_eq_getElem?, List.length_take, List.length_drop]
  have hmin : min L (s.length - i) = L := by omega
  rw [hmin, List.getElem?_take, if_pos (by omega), List.getElem?_drop]
  congr 1
  omega

/-- The `nextAfter` id of a projected page equals the `nextAfter` id of the
row page when row ids agree with item ids. -/
theorem after_id_eq {x : List ThreadItemRowT} (hsub : ∀ r ∈ x, r.id = r.item.id) :
    ((x.map (fun r => r.item)).getLast?).map (fun it => it.id) =
      (x.getLast?).map (fun r => r.id) := by
  rw [List.getLast?_map]
  cases hx : x.getLast? with
  | none => rfl
  | some r =>
    have hr : r ∈ x := by
      have hg := List.getLast?_eq_getElem? x
      rw [hx] at hg
      obtain ⟨h, hh⟩ := List.getElem?_eq_some.mp hg.symm
      exact hh ▸ List.getElem_mem h
    simp [hsub r hr]

/-- `listEqT` is sound for equality. -/
theorem listEqT_sound : ∀ (a b : List Char), listEqT a b = true → a = b := by
  intro a
  induction a with
  | nil =>
    intro b h
    cases b with
    | nil => rfl
    | cons x xs => simp [listEqT] at h
  | cons x xs ih =>
    intro b h
    cases b with
    | nil => simp [listEqT] at h
    | cons y ys =>
      by_cases hxy : x = y
      · subst hxy
        simp only [listEqT, if_pos rfl] at h
        rw [ih ys h]
      · simp [listEqT, hxy] at h

/-- `outEq` is sound for equality of compiler outputs. -/
theorem outEq_sound (x y : Except String (String × List FValue)) (h : outEq x y = true) :
    x = y := by
  cases x with
  | error e1 =>
    cases y with
    | error e2 =>
      simp only [outEq] at h
      have he : e1 = e2 := congrArg String.mk (listEqT_sound _ _ h)
      rw [he]
    | ok p2 => simp [outEq] at h
  | ok p1 =>
    cases y with
    | error e2 => simp [outEq] at h
    | ok p2 =>
      obtain ⟨s1, q1⟩ := p1
      obtain ⟨s2, q2⟩ := p2
      simp only [outEq, Bool.and_eq_true, decide_eq_true_eq] at h
      have hs : s1 = s2 := congrArg String.mk (listEqT_sound _ _ h.1)
      rw [hs, h.2]

/-- Evaluation of the compiler on the spec's `gl_summary` scenario request. -/
theorem buildSql_c4_eval :
    buildSql "gl_summary" c4Select c4Filters (some 10) [] [] =
      Except.ok ("SELECT TOP 10 " ++ c4SqlBody, c4Params) :=
  outEq_sound _ _ rfl

/-- Evaluation of the compiler on the same request with `limit = 0`. -/
theorem buildSql_c4_limit0_eval :
    buildSql "gl_summary" c4Select c4Filters (some 0) [] [] =
      Except.ok ("SELECT TOP 1000 " ++ c4SqlBody, c4Params) :=
  outEq_sound _ _ rfl

/-- Merging the `SELECT ` and `TOP ... ` fragments of the select clause. -/
theorem select_top_merge (ts x : String) :
    "SELECT " ++ ("TOP " ++ ts ++ " ") ++ x = ("SELECT TOP " ++ ts ++ " ") ++ x := by
  have h : ("SELECT " : String) ++ "TOP " = "SELECT TOP " := rfl
  rw [← String.append_assoc, ← String.append_assoc, h]

/-- Appending on the right preserves an established prefix shape. -/
theorem append_keeps_rest {p s : String} (h : ∃ r, s = p ++ r) (x : String) :
    ∃ r, s ++ x = p ++ r := by
  obtain ⟨r, hr⟩ := h
  exact ⟨r ++ x, by rw [hr, String.append_assoc]⟩

/-- A conditional whose branches both carry the prefix shape carries it. -/
theorem shape_ite {p : String} {c : Prop} [Decidable c] {s t : String}
    (hs : ∃ r, s = p ++ r) (ht : ∃ r, t = p ++ r) :
    ∃ r, (if c then s else t) = p ++ r := by
  split
  · exact hs
  · exact ht

/-! ## Claim theorems: the query compiler -/

/-- C4 (counterexample): on the spec's scenario request the compiler does
not produce the claimed SQL text
`SELECT TOP 10 ... FROM PS_LEDGER gl WHERE gl.FISCAL_YEAR = ? AND gl.DEPTID = ?`:
it also emits all seven declared joins of `gl_summary`, opens the WHERE
clause with the default filter `gl.ACCOUNTING_PERIOD NOT IN ('999')`, and
uses `%s` placeholders instead of `?`. -/
theorem c4_counterexample :
    buildSql "gl_summary" c4Select c4Filters (some 10) [] [] ≠
      Except.ok (c4ClaimedSql, c4Params) := by
  rw [buildSql_c4_eval]
  intro h
  have h2 : ("SELECT TOP 10 " ++ c4SqlBody, c4Params) = (c4ClaimedSql, c4Params) :=
    Except.ok.inj h
  have h3 : "SELECT TOP 10 " ++ c4SqlBody = c4ClaimedSql := congrArg Prod.fst h2
  have h4 : ("SELECT TOP 10 " ++ c4SqlBody).data.take 130 = c4ClaimedSql.data.take 130 := by
    rw [h3]
  exact absurd h4 (by decide)

/-- C4 (amended): compiling the scenario request
`select=[fiscal_year, department, amount]`,
`filters=[{fiscal_year,"=",2024},{department,"=","5500"}]`, `limit=10`
against the registry's `gl_summary` produces exactly the SQL text
`"SELECT TOP 10 " ++ c4SqlBody` — the three aliased select expressions, the
seven unconditionally emitted LEFT JOINs, and a WHERE clause consisting of
the default filter followed by the two user filters with `%s` placeholders —
and the parameter list `[2024, "5500"]`. -/
theorem c4_amended_sql :
    buildSql "gl_summary" c4Select c4Filters (some 10) [] [] =
      Except.ok ("SELECT TOP 10 " ++ c4SqlBody, c4Params) :=
  buildSql_c4_eval

/-- C5: the compiler is a pure function of its request — any two invocations
on equal requests return identical SQL text and identically ordered
parameter lists. -/
theorem c5_deterministic (r1 r2 : QueryRequest) (h : r1 = r2) :
    buildSqlReq r1 = buildSqlReq r2 := by
  rw [h]

/-- Witness for C5 at the scenario request. -/
theorem c5_deterministic_witness :
    buildSqlReq ⟨"gl_summary", c4Select, c4Filters, some 10, [], []⟩ =
      buildSqlReq ⟨"gl_summary", c4Select, c4Filters, some 10, [], []⟩ :=
  c5_deterministic _ _ rfl

/-- C6 (counterexample): a supplied limit of `0` is falsy in Python
(`limit or 1000`), so the compiler emits `TOP 1000`, not
`min(0, 5000) = 0` as the claim requires. -/
theorem c6_counterexample :
    buildSql "gl_summary" c4Select c4Filters (some 0) [] [] =
      Except.ok ("SELECT TOP 1000 " ++ c4SqlBody, c4Params) ∧
    effectiveLimit (some 0) = 1000 ∧
    min (0 : Int) MAX_LIMIT ≠ 1000 := by
  refine ⟨buildSql_c4_limit0_eval, rfl, by decide⟩

/-- C6 (amended): for every request whose limit is not the falsy `0`, the
effective limit is `min(requested limit if supplied else 1000, 5000)`, and
whenever compilation succeeds the SQL text opens with the select-level
clause `SELECT TOP <effective limit> ` (never a trailing clause). -/
theorem c6_amended_effective_limit (entity : String) (select : List String)
    (filters : List FilterSpec) (limit : Option Int) (orderBy : List (String × String))
    (groupBy : List String) (sql : String) (params : List FValue)
    (hne : limit ≠ some 0)
    (hok : buildSql entity select filters limit orderBy groupBy = Except.ok (sql, params)) :
    effectiveLimit limit = min (limit.getD 1000) MAX_LIMIT ∧
    ∃ rest, sql = ("SELECT TOP " ++ toString (effectiveLimit limit) ++ " ") ++ rest := by
  constructor
  · cases limit with
    | none => rfl
    | some l =>
      have hl : l ≠ 0 := fun h => hne (by rw [h])
      simp [effectiveLimit, hl, Option.getD]
  · cases hfind : ENTITIES.find? (fun p => p.1 = strLower entity) with
    | none => rw [buildSql, hfind] at hok; cases hok
    | some pcfg =>
      rw [buildSql, hfind] at hok
      by_cases hsel : select = []
      · simp only [hsel, if_pos rfl] at hok
        cases hok
      · simp only [if_neg hsel] at hok
        cases hcols : select.mapM (selectExpression (strLower entity) pcfg.2) with
        | error e => rw [hcols] at hok; cases hok
        | ok columns =>
          rw [hcols] at hok
          cases huser : filters.mapM (compileFilter (strLower entity) pcfg.2) with
          | error e => rw [huser] at hok; cases hok
          | ok userCompiled =>
            rw [huser] at hok
            cases hgrp : groupBy.mapM (columnReference (strLower entity) pcfg.2) with
            | error e => rw [hgrp] at hok; cases hok
            | ok groupCols =>
              rw [hgrp] at hok
              cases hord : orderBy.mapM (orderClause (strLower entity) pcfg.2) with
              | error e => rw [hord] at hok; cases hok
              | ok orderCols =>
                rw [hord] at hok
                simp only [Except.ok.injEq, Prod.mk.injEq] at hok
                obtain ⟨hsql, -⟩ := hok
                rw [← hsql]
                have hbase : ∃ r,
                    "SELECT " ++ ("TOP " ++ toString (effectiveLimit limit) ++ " ") ++
                      String.intercalate ", " columns ++ " FROM " ++ pcfg.2.table ++ " " ++
                      pcfg.2.tblAlias ++ String.join (List.map joinClause pcfg.2.joins) =
                    ("SELECT TOP " ++ toString (effectiveLimit limit) ++ " ") ++ r :=
                  append_keeps_rest (append_keeps_rest (append_keeps_rest (append_keeps_rest
                    (append_keeps_rest ⟨String.intercalate ", " columns,
                        select_top_merge _ _⟩
                      " FROM ") pcfg.2.table) " ") pcfg.2.tblAlias)
                    (String.join (List.map joinClause pcfg.2.joins))
                apply shape_ite
                · apply shape_ite
                  · apply shape_ite
                    · exact hbase
                    · exact append_keeps_rest (append_keeps_rest hbase " WHERE ") _
                  · refine append_keeps_rest (append_keeps_rest ?_ " GROUP BY ") _
                    apply shape_ite
                    · exact hbase
                    · exact append_keeps_rest (append_keeps_rest hbase " WHERE ") _
                · refine append_keeps_rest (append_keeps_rest ?_ " ORDER BY ") _
                  apply shape_ite
                  · apply shape_ite
                    · exact hbase
                    · exact append_keeps_rest (append_keeps_rest hbase " WHERE ") _
                  · refine append_keeps_rest (append_keeps_rest ?_ " GROUP BY ") _
                    apply shape_ite
                    · exact hbase
                    · exact append_keeps_rest (append_keeps_rest hbase " WHERE ") _

/-- Witness for C6 (amended) at the scenario request. -/
theorem c6_amended_effective_limit_witness :
    effectiveLimit (some 10) = min ((some (10 : Int)).getD 1000) MAX_LIMIT ∧
    ∃ rest, "SELECT TOP 10 " ++ c4SqlBody =
      ("SELECT TOP " ++ toString (effectiveLimit (some 10)) ++ " ") ++ rest :=
  c6_amended_effective_limit "gl_summary" c4Select c4Filters (some 10) [] [] _ _
    (by decide) buildSql_c4_eval

/-- C7: for a filter clause whose field resolves to the column `col`, the
`IN` operator never fails: an empty value list compiles to the always-false
predicate `1=0` binding no parameters, and a non-empty list compiles to
`col IN (...)` with exactly one `%s` placeholder per element and the
elements appended to the parameter list in order. -/
theorem c7_in_operator (ent : String) (cfg : EntityCfg) (field col : String)
    (vs : List Scalar) (hcol : columnReference ent cfg field = Except.ok col) :
    compileFilter ent cfg ⟨field, "IN", FValue.list vs⟩ =
      (if vs = [] then Except.ok ("1=0", ([] : List FValue))
       else Except.ok
         (col ++ " IN (" ++ String.intercalate ", " (List.replicate vs.length "%s") ++ ")",
           vs.map FValue.scalar)) := by
  rw [compileFilter, hcol]
  norm_num [opAllowed]

/-- Witness for C7 on `gl_summary.department` with an empty and a singleton
value list. -/
theorem c7_in_operator_witness :
    (compileFilter "gl_summary" GL_SUMMARY ⟨"department", "IN", FValue.list []⟩ =
      (if ([] : List Scalar) = [] then Except.ok ("1=0", ([] : List FValue))
       else Except.ok
         ("gl.DEPTID IN (" ++
            String.intercalate ", " (List.replicate ([] : List Scalar).length "%s") ++ ")",
           ([] : List Scalar).map FValue.scalar))) ∧
    (compileFilter "gl_summary" GL_SUMMARY ⟨"department", "IN",
        FValue.list [Scalar.s "5500"]⟩ =
      (if [Scalar.s "5500"] = [] then Except.ok ("1=0", ([] : List FValue))
       else Except.ok
         ("gl.DEPTID IN (" ++
            String.intercalate ", " (List.replicate [Scalar.s "5500"].length "%s") ++ ")",
           [Scalar.s "5500"].map FValue.scalar))) :=
  ⟨c7_in_operator "gl_summary" GL_SUMMARY "department" "gl.DEPTID" [] (by decide),
   c7_in_operator "gl_summary" GL_SUMMARY "department" "gl.DEPTID" [Scalar.s "5500"]
     (by decide)⟩

/-- C8 (counterexample): the tool wrapper calls the executor outside its
`try`/`except`, so an execution failure propagates as a raised exception
(`Except.error`) instead of the structured `{error}` result the claim
requires. -/
theorem c8_counterexample :
    queryPsFinance (fun _ _ => Except.error "ExecutionError")
      "gl_summary" c4Select c4Filters (some 10) [] [] =
      Except.error "ExecutionError" := by
  decide

/-- C8 (amended): the wrapper converts a compilation failure into a
structured `{error}` result; on success it returns
`{entity, row_count, rows}` with `row_count` the number of returned rows;
but an executor failure propagates uncaught. -/
theorem c8_amended_wrapper (runQuery : String → List FValue → Except String (List ResultRow))
    (entity : String) (select : List String) (filters : List FilterSpec)
    (limit : Option Int) (orderBy : List (String × String)) (groupBy : List String) :
    (∀ e, buildSql entity select filters limit orderBy groupBy = Except.error e →
      queryPsFinance runQuery entity select filters limit orderBy groupBy =
        Except.ok (ToolOutput.failure e)) ∧
    (∀ sql params rows,
      buildSql entity select filters limit orderBy groupBy = Except.ok (sql, params) →
      runQuery sql params = Except.ok rows →
      queryPsFinance runQuery entity select filters limit orderBy groupBy =
        Except.ok (ToolOutput.result entity rows.length rows)) ∧
    (∀ sql params e,
      buildSql entity select filters limit orderBy groupBy = Except.ok (sql, params) →
      runQuery sql params = Except.error e →
      queryPsFinance runQuery entity select filters limit orderBy groupBy =
        Except.error e) := by
  refine ⟨?_, ?_, ?_⟩
  · intro e hb
    rw [queryPsFinance, hb]
  · intro sql params rows hb hr
    rw [queryPsFinance, hb]
    dsimp only
    rw [hr]
  · intro sql params e hb hr
    rw [queryPsFinance, hb]
    dsimp only
    rw [hr]

/-- A map whose function fixes every member is the identity. -/
theorem map_self_of_mem {α : Type} {f : α → α} :
    ∀ {l : List α}, (∀ a ∈ l, f a = a) → l.map f = l := by
  intro l
  induction l with
  | nil => intro _; rfl
  | cons a as ih =>
    intro h
    rw [List.map_cons, h a (List.mem_cons_self a as),
      ih (fun x hx => h x (List.mem_cons.mpr (Or.inr hx)))]

/-! ## Pagination traversal lemmas -/

/-- One in-memory traversal invariant: from a cursor resolving to start
index `j`, the remaining pages concatenate to the sorted suffix from `j`. -/
theorem pagesMem_from (l : List ThreadItem) (L : Nat) (desc : Bool)
    (hL : 1 ≤ L)
    (hids : (l.map (fun it => it.id)).Nodup)
    (hne : ∀ it ∈ l, it.id ≠ "") :
    ∀ (fuel j : Nat) (c : Option String),
      memStartIndex (memSorted desc l) c = j →
      l.length - j < fuel →
      pagesMem l L desc fuel c = some ((memSorted desc l).drop j) := by
  have hsids : ((memSorted desc l).map (fun it => it.id)).Nodup := by
    rw [List.Perm.nodup_iff (List.Perm.map _ (memSorted_perm desc l))]
    exact hids
  have hslen : (memSorted desc l).length = l.length := memSorted_length desc l
  intro fuel
  induction fuel with
  | zero => intro j c _ hf; omega
  | succ f ih =>
    intro j c hstart hf
    by_cases hmore : j + L < l.length
    · have hj1 : j + L - 1 < (memSorted desc l).length := by omega
      have hlast : (((memSorted desc l).drop j).take L).getLast? =
          some ((memSorted desc l).get ⟨j + L - 1, hj1⟩) := by
        rw [getLast?_take_drop _ j L hL (by omega), List.get_eq_getElem,
          List.getElem?_eq_getElem hj1]
      have hget_ne : ((memSorted desc l).get ⟨j + L - 1, hj1⟩).id ≠ "" :=
        hne _ ((memSorted_perm desc l).mem_iff.mp (List.get_mem _ _ _))
      have hnext : memStartIndex (memSorted desc l)
          (some ((memSorted desc l).get ⟨j + L - 1, hj1⟩).id) = j + L := by
        simp only [memStartIndex, if_neg hget_ne,
          scanIdx_of_nodup_key (fun it => it.id) (memSorted desc l) (j + L - 1) hj1 hsids]
        omega
      have hdec : decide (j + L < (memSorted desc l).length) = true := by
        rw [hslen]
        exact decide_eq_true hmore
      simp only [pagesMem, loadThreadItemsMem, hstart, hdec, if_true, hlast,
        Option.map_some']
      rw [ih (j + L) _ hnext (by omega)]
      dsimp only
      have happ : ((memSorted desc l).drop j).take L ++ (memSorted desc l).drop (j + L) =
          (memSorted desc l).drop j := by
        rw [← List.drop_drop L j, List.take_append_drop]
      rw [happ]
    · have hdec : decide (j + L < (memSorted desc l).length) = false := by
        rw [hslen]
        exact decide_eq_false hmore
      simp only [pagesMem, loadThreadItemsMem, hstart, hdec, Bool.false_eq_true, if_false]
      have htake : ((memSorted desc l).drop j).take L = (memSorted desc l).drop j := by
        apply List.take_of_length_le
        rw [List.length_drop, hslen]
        omega
      rw [htake]

/-- A relational listing whose cursor resolves to sorted position `j` (no
cursor for `j = 0`, else the id of the row at `j - 1`) pages over the sorted
suffix from `j`. -/
theorem pgLoad_at (l : List ThreadItem) (tid : String) (L : Nat) (desc : Bool)
    (hids : (l.map (fun it => it.id)).Nodup)
    (hdir : desc = false ∨ (l.map (fun it => it.createdAt)).Nodup)
    (hne : ∀ it ∈ l, it.id ≠ "") (j : Nat) (c : Option String)
    (hcur : (c = none ∧ j = 0) ∨
      (1 ≤ j ∧ ∃ (hj : j - 1 < (pgSortedRows desc (rowsOf tid l)).length),
        c = some (((pgSortedRows desc (rowsOf tid l)).get ⟨j - 1, hj⟩).id))) :
    loadThreadItemsPg (rowsOf tid l) tid c L desc =
      Except.ok
        { data := ((((pgSortedRows desc (rowsOf tid l)).drop j).take (L + 1)).take L).map
            (fun r => r.item)
          hasMore :=
            decide (L < (((pgSortedRows desc (rowsOf tid l)).drop j).take (L + 1)).length)
          after :=
            if decide
                (L < (((pgSortedRows desc (rowsOf tid l)).drop j).take (L + 1)).length) =
                true then
              (((((pgSortedRows desc (rowsOf tid l)).drop j).take (L + 1)).take
                  L).getLast?).map (fun r => r.id)
            else none } := by
  have hrowids : ((rowsOf tid l).map (fun r => r.id)).Nodup := by
    rw [map_id_rowsOf]; exact hids
  rcases hcur with ⟨hc, hj⟩ | ⟨hj1, hj, hc⟩
  · subst hc
    subst hj
    have hcand : pgCandidates (rowsOf tid l) tid none desc =
        Except.ok (rowsOf tid l) := by
      simp only [pgCandidates]
      rw [rowsOf_filter_tid]
    simp only [loadThreadItemsPg, hcand, List.drop_zero]
  · subst hc
    have hXmem : (pgSortedRows desc (rowsOf tid l)).get ⟨j - 1, hj⟩ ∈ rowsOf tid l :=
      (pgSorted_perm desc (rowsOf tid l)).mem_iff.mp (List.get_mem _ _ _)
    have hXne : ((pgSortedRows desc (rowsOf tid l)).get ⟨j - 1, hj⟩).id ≠ "" := by
      have hm := mem_rowsOf hXmem
      rw [hm.2.2.1]
      exact hne _ hm.2.1
    have hfound : (rowsOf tid l).find?
        (fun r => r.id = ((pgSortedRows desc (rowsOf tid l)).get ⟨j - 1, hj⟩).id) =
        some ((pgSortedRows desc (rowsOf tid l)).get ⟨j - 1, hj⟩) :=
      find?_key_of_nodup (fun r => r.id) (rowsOf tid l) _ hrowids hXmem
    have hcand : pgCandidates (rowsOf tid l) tid
        (some (((pgSortedRows desc (rowsOf tid l)).get ⟨j - 1, hj⟩).id)) desc =
        Except.ok ((rowsOf tid l).filter
          (rowAfterB desc ((pgSortedRows desc (rowsOf tid l)).get ⟨j - 1, hj⟩))) := by
      simp only [pgCandidates, rowsOf_filter_tid, hfound, if_neg hXne]
    have hdrop : pgSortedRows desc ((rowsOf tid l).filter
        (rowAfterB desc ((pgSortedRows desc (rowsOf tid l)).get ⟨j - 1, hj⟩))) =
        (pgSortedRows desc (rowsOf tid l)).drop j := by
      rw [pgSorted_filter_comm desc (rowsOf tid l) hrowids,
        pg_filter_drop desc tid l hids hdir (j - 1) hj]
      congr 1
      omega
    simp only [loadThreadItemsPg, hcand, hdrop]

/-- One relational traversal invariant: from a cursor resolving to sorted
position `j`, the remaining pages concatenate to the item projection of the
sorted suffix from `j`. -/
theorem pagesPg_from (l : List ThreadItem) (tid : String) (L : Nat) (desc : Bool)
    (hL : 1 ≤ L)
    (hids : (l.map (fun it => it.id)).Nodup)
    (hdir : desc = false ∨ (l.map (fun it => it.createdAt)).Nodup)
    (hne : ∀ it ∈ l, it.id ≠ "") :
    ∀ (fuel j : Nat) (c : Option String),
      ((c = none ∧ j = 0) ∨
        (1 ≤ j ∧ ∃ (hj : j - 1 < (pgSortedRows desc (rowsOf tid l)).length),
          c = some (((pgSortedRows desc (rowsOf tid l)).get ⟨j - 1, hj⟩).id))) →
      l.length - j < fuel →
      pagesPg (rowsOf tid l) tid L desc fuel c =
        some (((pgSortedRows desc (rowsOf tid l)).drop j).map (fun r => r.item)) := by
  have hulen : (pgSortedRows desc (rowsOf tid l)).length = l.length := by
    rw [pgSorted_length, rowsOf, List.length_map]
  intro fuel
  induction fuel with
  | zero => intro j c _ hf; omega
  | succ f ih =>
    intro j c hcur hf
    have hload := pgLoad_at l tid L desc hids hdir hne j c hcur
    by_cases hmore : j + L < l.length
    · have hfetchlen :
          (((pgSortedRows desc (rowsOf tid l)).drop j).take (L + 1)).length = L + 1 := by
        rw [List.length_take, List.length_drop, hulen]
        omega
      have hdec :
          decide (L <
            (((pgSortedRows desc (rowsOf tid l)).drop j).take (L + 1)).length) = true := by
        rw [hfetchlen]
        exact decide_eq_true (by omega)
      have hj1 : j + L - 1 < (pgSortedRows desc (rowsOf tid l)).length := by omega
      have hlast :
          (((((pgSortedRows desc (rowsOf tid l)).drop j).take (L + 1)).take
            L).getLast?) =
          some ((pgSortedRows desc (rowsOf tid l)).get ⟨j + L - 1, hj1⟩) := by
        rw [List.take_take, Nat.min_eq_left (Nat.le_succ L),
          getLast?_take_drop _ j L hL (by omega), List.get_eq_getElem,
          List.getElem?_eq_getElem hj1]
      simp only [pagesPg, hload, hdec, if_true, hlast, Option.map_some']
      have hnextcur :
          ((some (((pgSortedRows desc (rowsOf tid l)).get ⟨j + L - 1, hj1⟩).id) :
              Option String) = none ∧ j + L = 0) ∨
          (1 ≤ j + L ∧ ∃ (hj : j + L - 1 < (pgSortedRows desc (rowsOf tid l)).length),
            (some (((pgSortedRows desc (rowsOf tid l)).get ⟨j + L - 1, hj1⟩).id) :
              Option String) =
              some (((pgSortedRows desc (rowsOf tid l)).get ⟨j + L - 1, hj⟩).id)) := by
        right
        exact ⟨by omega, hj1, rfl⟩
      rw [ih (j + L) _ hnextcur (by omega)]
      dsimp only
      have happ :
          ((((pgSortedRows desc (rowsOf tid l)).drop j).take (L + 1)).take L).map
              (fun r => r.item) ++
            (((pgSortedRows desc (rowsOf tid l)).drop (j + L)).map (fun r => r.item)) =
          (((pgSortedRows desc (rowsOf tid l)).drop j).map (fun r => r.item)) := by
        rw [List.take_take, Nat.min_eq_left (Nat.le_succ L), ← List.drop_drop L j,
          ← List.map_append, List.take_append_drop]
      rw [happ]
    · have hdec :
          decide (L <
            (((pgSortedRows desc (rowsOf tid l)).drop j).take (L + 1)).length) = false := by
        rw [List.length_take, List.length_drop, hulen]
        exact decide_eq_false (by omega)
      simp only [pagesPg, hload, hdec, Bool.false_eq_true, if_false]
      have htake : (((pgSortedRows desc (rowsOf tid l)).drop j).take (L + 1)).take L =
          (pgSortedRows desc (rowsOf tid l)).drop j := by
        rw [List.take_take, Nat.min_eq_left (Nat.le_succ L)]
        apply List.take_of_length_le
        rw [List.length_drop, hulen]
        omega
      rw [htake]

/-! ## Claim theorems: pagination equivalence (C1) -/

/-- C1 (counterexample): with two items sharing a `createdAt` instant,
inserted as `b` then `a`, the in-memory store lists them in insertion order
(`created_at`-only stable sort) while the relational store breaks the tie by
`id` ascending, so the two backends return different page contents for the
same state, limit and ordering. -/
theorem c1_counterexample :
    loadThreadItemsMem [⟨"b", 5, "pb"⟩, ⟨"a", 5, "pa"⟩] none 2 false =
      ⟨[⟨"b", 5, "pb"⟩, ⟨"a", 5, "pa"⟩], false, none⟩ ∧
    loadThreadItemsPg (rowsOf "t" [⟨"b", 5, "pb"⟩, ⟨"a", 5, "pa"⟩]) "t" none 2 false =
      Except.ok ⟨[⟨"a", 5, "pa"⟩, ⟨"b", 5, "pb"⟩], false, none⟩ ∧
    loadThreadItemsPg (rowsOf "t" [⟨"b", 5, "pb"⟩, ⟨"a", 5, "pa"⟩]) "t" none 2 false ≠
      Except.ok (loadThreadItemsMem [⟨"b", 5, "pb"⟩, ⟨"a", 5, "pa"⟩] none 2 false) := by
  refine ⟨by decide, by decide, by decide⟩

/-- C1 (amended): for every thread state whose items have pairwise-distinct
ids and pairwise-distinct `createdAt` values, and any cursor that is either
absent or the (non-empty) id of one of the thread's items, the relational
and in-memory `load_thread_items` return identical pages (same rows, same
`hasMore`, same `nextAfter`) for every limit and ordering direction. -/
theorem c1_amended_pages_agree (l : List ThreadItem) (tid : String) (limit : Nat)
    (desc : Bool) (a? : Option String)
    (hids : (l.map (fun it => it.id)).Nodup)
    (hcre : (l.map (fun it => it.createdAt)).Nodup)
    (hcur : ∀ a, a? = some a → a ≠ "" ∧ a ∈ l.map (fun it => it.id)) :
    loadThreadItemsPg (rowsOf tid l) tid a? limit desc =
      Except.ok (loadThreadItemsMem l a? limit desc) := by
  have hrowids : ((rowsOf tid l).map (fun r => r.id)).Nodup := by
    rw [map_id_rowsOf]; exact hids
  have hsu : memSorted desc l =
      (pgSortedRows desc (rowsOf tid l)).map (fun r => r.item) :=
    memSorted_eq_pgSorted_map desc tid l hcre
  have huid : ∀ r ∈ pgSortedRows desc (rowsOf tid l), r.id = r.item.id := fun r hr =>
    (mem_rowsOf ((pgSorted_perm desc (rowsOf tid l)).mem_iff.mp hr)).2.2.1
  have hulen : (pgSortedRows desc (rowsOf tid l)).length = l.length := by
    rw [pgSorted_length, rowsOf, List.length_map]
  cases a? with
  | none =>
    have hcand : pgCandidates (rowsOf tid l) tid none desc =
        Except.ok (rowsOf tid l) := by
      simp only [pgCandidates]
      rw [rowsOf_filter_tid]
    have hdata :
        ((((pgSortedRows desc (rowsOf tid l)).take (limit + 1)).take limit).map
          (fun r => r.item)) = ((memSorted desc l).drop 0).take limit := by
      rw [List.take_take, Nat.min_eq_left (Nat.le_succ limit), List.drop_zero, hsu,
        ← List.map_take]
    have hmore :
        decide (limit < ((pgSortedRows desc (rowsOf tid l)).take (limit + 1)).length) =
          decide (0 + limit < (memSorted desc l).length) := by
      rw [List.length_take, hulen, memSorted_length]
      exact decide_eq_decide.mpr (by omega)
    have hXY :
        ((((pgSortedRows desc (rowsOf tid l)).take (limit + 1)).take limit).getLast?).map
            (fun r => r.id) =
          ((((memSorted desc l).drop 0).take limit).getLast?).map (fun it => it.id) := by
      rw [List.take_take, Nat.min_eq_left (Nat.le_succ limit), List.drop_zero, hsu,
        ← List.map_take,
        after_id_eq (fun r hr => huid r (List.take_subset limit _ hr))]
    simp only [loadThreadItemsPg, hcand, loadThreadItemsMem, memStartIndex]
    rw [hdata, hmore, hXY]
  | some a =>
    obtain ⟨hane, hamem⟩ := hcur a rfl
    obtain ⟨x, hxl, hxid⟩ := List.mem_map.mp hamem
    have hXmem : (⟨x.id, tid, x, x.createdAt⟩ : ThreadItemRowT) ∈
        pgSortedRows desc (rowsOf tid l) :=
      (pgSorted_perm desc (rowsOf tid l)).mem_iff.mpr
        (List.mem_map_of_mem (fun it => (⟨it.id, tid, it, it.createdAt⟩ : ThreadItemRowT))
          hxl)
    obtain ⟨i, hi, hXi⟩ := List.mem_iff_getElem.mp hXmem
    have hXget : (pgSortedRows desc (rowsOf tid l)).get ⟨i, hi⟩ =
        ⟨x.id, tid, x, x.createdAt⟩ := hXi
    have hfound : (rowsOf tid l).find? (fun r => r.id = a) =
        some (⟨x.id, tid, x, x.createdAt⟩ : ThreadItemRowT) := by
      rw [← hxid]
      exact find?_key_of_nodup (fun r => r.id) (rowsOf tid l) ⟨x.id, tid, x, x.createdAt⟩
        hrowids
        (List.mem_map_of_mem (fun it => (⟨it.id, tid, it, it.createdAt⟩ : ThreadItemRowT))
          hxl)
    have hcand : pgCandidates (rowsOf tid l) tid (some a) desc =
        Except.ok ((rowsOf tid l).filter
          (rowAfterB desc (⟨x.id, tid, x, x.createdAt⟩ : ThreadItemRowT))) := by
      simp only [pgCandidates, rowsOf_filter_tid, hfound, if_neg hane]
    have hdrop : pgSortedRows desc ((rowsOf tid l).filter
        (rowAfterB desc (⟨x.id, tid, x, x.createdAt⟩ : ThreadItemRowT))) =
        (pgSortedRows desc (rowsOf tid l)).drop (i + 1) := by
      rw [pgSorted_filter_comm desc (rowsOf tid l) hrowids, ← hXget]
      exact pg_filter_drop desc tid l hids (Or.inr hcre) i hi
    have hslen : i < (memSorted desc l).length := by
      rw [memSorted_length]
      omega
    have hsget : (memSorted desc l).get ⟨i, hslen⟩ = x := by
      rw [List.get_eq_getElem, List.getElem_of_eq hsu hslen, List.getElem_map, hXi]
    have hsids : ((memSorted desc l).map (fun it => it.id)).Nodup := by
      rw [List.Perm.nodup_iff (List.Perm.map (fun it => it.id) (memSorted_perm desc l))]
      exact hids
    have hscan : scanIdx (fun it => it.id = a) (memSorted desc l) = some i := by
      have := scanIdx_of_nodup_key (fun it => it.id) (memSorted desc l) i hslen hsids
      rw [hsget] at this
      rw [← hxid]
      exact this
    have hstart : memStartIndex (memSorted desc l) (some a) = i + 1 := by
      rw [memStartIndex, if_neg hane, hscan]
    have hdata :
        (((((pgSortedRows desc (rowsOf tid l)).drop (i + 1)).take (limit + 1)).take
            limit).map (fun r => r.item)) =
          ((memSorted desc l).drop (i + 1)).take limit := by
      rw [List.take_take, Nat.min_eq_left (Nat.le_succ limit), hsu, ← List.map_drop,
        ← List.map_take]
    have hmore :
        decide (limit <
            (((pgSortedRows desc (rowsOf tid l)).drop (i + 1)).take (limit + 1)).length) =
          decide (i + 1 + limit < (memSorted desc l).length) := by
      rw [List.length_take, List.length_drop, hulen, memSorted_length]
      exact decide_eq_decide.mpr (by omega)
    have hXY :
        (((((pgSortedRows desc (rowsOf tid l)).drop (i + 1)).take (limit + 1)).take
            limit).getLast?).map (fun r => r.id) =
          ((((memSorted desc l).drop (i + 1)).take limit).getLast?).map
            (fun it => it.id) := by
      rw [List.take_take, Nat.min_eq_left (Nat.le_succ limit), hsu, ← List.map_drop,
        ← List.map_take,
        after_id_eq (fun r hr => huid r
          (List.drop_subset (i + 1) _ (List.take_subset limit _ hr)))]
    simp only [loadThreadItemsPg, hcand, hdrop, loadThreadItemsMem, hstart]
    rw [hdata, hmore, hXY]

/-- Witness for C1 (amended) at a two-item thread with distinct ids and
creation instants, paging past item `"a"`. -/
theorem c1_amended_pages_agree_witness :
    loadThreadItemsPg (rowsOf "t" [⟨"a", 1, "pa"⟩, ⟨"b", 2, "pb"⟩]) "t" (some "a") 1 false =
      Except.ok (loadThreadItemsMem [⟨"a", 1, "pa"⟩, ⟨"b", 2, "pb"⟩] (some "a") 1 false) :=
  c1_amended_pages_agree [⟨"a", 1, "pa"⟩, ⟨"b", 2, "pb"⟩] "t" 1 false (some "a")
    (by decide) (by decide)
    (by
      intro a h
      injection h with h'
      subst h'
      exact ⟨by decide, by decide⟩)

/-! ## Claim theorems: cursor semantics (C2) -/

/-- C2 (counterexample): with one stored item and the unknown cursor
`"zzz"`, the in-memory listing does not fail with `NotFoundError` — it
silently starts from the beginning and returns the page; the relational
backend raises for the same call. -/
theorem c2_counterexample :
    loadThreadItemsMem [⟨"a", 1, "p"⟩] (some "zzz") 10 false =
      ⟨[⟨"a", 1, "p"⟩], false, none⟩ ∧
    loadThreadItemsPg (rowsOf "t" [⟨"a", 1, "p"⟩]) "t" (some "zzz") 10 false =
      Except.error ("Thread item " ++ "zzz" ++ " not found") :=
  ⟨by decide, by decide⟩

/-- C2 (amended): in the relational backend a non-null, non-empty `after` id
that resolves to no row raises `NotFoundError`, and when it resolves the
returned candidate rows all lie strictly past the anchor's
`(createdAt, id)` key in the requested direction.  The in-memory backend
never raises: an `after` id matching no item is silently ignored (the page
starts from the beginning), and a matched id starts the page positionally
past the first match in its own `createdAt`-sorted order. -/
theorem c2_amended_cursor_semantics :
    (∀ (rows : List ThreadItemRowT) (tid a : String) (limit : Nat) (desc : Bool),
      a ≠ "" → rows.find? (fun r => r.id = a) = none →
      loadThreadItemsPg rows tid (some a) limit desc =
        Except.error ("Thread item " ++ a ++ " not found")) ∧
    (∀ (rows : List ThreadItemRowT) (tid a : String) (desc : Bool)
        (anchor : ThreadItemRowT) (q : List ThreadItemRowT),
      a ≠ "" → rows.find? (fun r => r.id = a) = some anchor →
      pgCandidates rows tid (some a) desc = Except.ok q →
      ∀ r ∈ q, rowAfterB desc anchor r = true) ∧
    (∀ (l : List ThreadItem) (a : String) (limit : Nat) (desc : Bool),
      (∀ it ∈ l, it.id ≠ a) →
      loadThreadItemsMem l (some a) limit desc = loadThreadItemsMem l none limit desc) ∧
    (∀ (l : List ThreadItem) (a : String) (limit : Nat) (desc : Bool) (i : Nat),
      a ≠ "" → scanIdx (fun it => it.id = a) (memSorted desc l) = some i →
      (loadThreadItemsMem l (some a) limit desc).data =
        ((memSorted desc l).drop (i + 1)).take limit) := by
  refine ⟨?_, ?_, ?_, ?_⟩
  · intro rows tid a limit desc hane hfind
    simp only [loadThreadItemsPg, pgCandidates, if_neg hane, hfind]
  · intro rows tid a desc anchor q hane hfind hcand
    simp only [pgCandidates, if_neg hane, hfind, Except.ok.injEq] at hcand
    intro r hr
    rw [← hcand] at hr
    exact (List.mem_filter.mp hr).2
  · intro l a limit desc hnone
    have hstart : memStartIndex (memSorted desc l) (some a) =
        memStartIndex (memSorted desc l) none := by
      by_cases hae : a = ""
      · simp only [memStartIndex, if_pos hae]
      · have hscan : scanIdx (fun it => it.id = a) (memSorted desc l) = none := by
          apply (scanIdx_eq_none _ _).mpr
          intro it hit
          simp [hnone it ((memSorted_perm desc l).mem_iff.mp hit)]
        simp only [memStartIndex, if_neg hae, hscan]
    simp only [loadThreadItemsMem, hstart]
  · intro l a limit desc i hane hscan
    simp only [loadThreadItemsMem, memStartIndex, if_neg hane, hscan]

/-- Witness for C2 (amended): the four behaviours at concrete stores. -/
theorem c2_amended_cursor_semantics_witness :
    loadThreadItemsPg (rowsOf "t" [⟨"a", 1, "p"⟩]) "t" (some "q") 5 false =
      Except.error ("Thread item " ++ "q" ++ " not found") ∧
    (∀ r ∈ [(⟨"b", "t", ⟨"b", 2, "pb"⟩, 2⟩ : ThreadItemRowT)],
      rowAfterB false ⟨"a", "t", ⟨"a", 1, "pa"⟩, 1⟩ r = true) ∧
    loadThreadItemsMem [⟨"a", 1, "p"⟩] (some "q") 5 false =
      loadThreadItemsMem [⟨"a", 1, "p"⟩] none 5 false ∧
    (loadThreadItemsMem [⟨"a", 1, "pa"⟩, ⟨"b", 2, "pb"⟩] (some "a") 5 false).data =
      ((memSorted false [⟨"a", 1, "pa"⟩, ⟨"b", 2, "pb"⟩]).drop (0 + 1)).take 5 :=
  ⟨c2_amended_cursor_semantics.1 (rowsOf "t" [⟨"a", 1, "p"⟩]) "t" "q" 5 false
      (by decide) (by decide),
   c2_amended_cursor_semantics.2.1
      (rowsOf "t" [⟨"a", 1, "pa"⟩, ⟨"b", 2, "pb"⟩]) "t" "a" false
      ⟨"a", "t", ⟨"a", 1, "pa"⟩, 1⟩ [⟨"b", "t", ⟨"b", 2, "pb"⟩, 2⟩]
      (by decide) (by decide) (by decide),
   c2_amended_cursor_semantics.2.2.1 [⟨"a", 1, "p"⟩] "q" 5 false (by decide),
   c2_amended_cursor_semantics.2.2.2 [⟨"a", 1, "pa"⟩, ⟨"b", 2, "pb"⟩] "a" 5 false 0
      (by decide) (by decide)⟩

/-! ## Claim theorems: exactly-once pagination (C3) -/

/-- C3 (counterexample): in the relational backend with `order = desc` and
two items sharing a `createdAt` instant, the cursor traversal loses a row:
the keyset predicate `(created_at, id) < anchor_key` excludes the tied row
whose id sorts after the anchor (the sort ties by `id ASC` while the cursor
compares the full tuple).  Inserting `a` and `b` at the same instant and
paging with `limit = 1` yields only `a`. -/
theorem c3_counterexample :
    pagesPg (rowsOf "t" [⟨"a", 5, "pa"⟩, ⟨"b", 5, "pb"⟩]) "t" 1 true 3 none =
      some [⟨"a", 5, "pa"⟩] ∧
    ¬ (([⟨"a", 5, "pa"⟩] : List ThreadItem).Perm [⟨"a", 5, "pa"⟩, ⟨"b", 5, "pb"⟩]) :=
  ⟨by decide, by decide⟩

/-- C3 (amended): with unique non-empty item ids and any page size `L ≥ 1`,
cursor pagination is lossless and duplicate-free in the in-memory backend
for either direction, and in the relational backend provided the order is
ascending or the `createdAt` values are distinct (in descending order with
`createdAt` ties the keyset cursor skips tied rows): the concatenated pages
are exactly the backend's full sorted order, a permutation of the items.
In both backends no page exceeds `L` rows, and `hasMore` is true iff at
least one further row exists beyond the page. -/
theorem c3_pagination_exactly_once (l : List ThreadItem) (tid : String) (L : Nat)
    (desc : Bool) (hL : 1 ≤ L)
    (hids : (l.map (fun it => it.id)).Nodup)
    (hne : ∀ it ∈ l, it.id ≠ "") :
    (pagesMem l L desc (l.length + 1) none = some (memSorted desc l) ∧
      (memSorted desc l).Perm l) ∧
    ((desc = false ∨ (l.map (fun it => it.createdAt)).Nodup) →
      pagesPg (rowsOf tid l) tid L desc (l.length + 1) none =
        some ((pgSortedRows desc (rowsOf tid l)).map (fun r => r.item)) ∧
      ((pgSortedRows desc (rowsOf tid l)).map (fun r => r.item)).Perm l) ∧
    (∀ c, (loadThreadItemsMem l c L desc).data.length ≤ L ∧
      ((loadThreadItemsMem l c L desc).hasMore = true ↔
        (memSorted desc l).drop (memStartIndex (memSorted desc l) c + L) ≠ [])) ∧
    (∀ c q page, pgCandidates (rowsOf tid l) tid c desc = Except.ok q →
      loadThreadItemsPg (rowsOf tid l) tid c L desc = Except.ok page →
      page.data.length ≤ L ∧ (page.hasMore = true ↔ L < q.length)) := by
  refine ⟨⟨?_, memSorted_perm desc l⟩, ?_, ?_, ?_⟩
  · have h := pagesMem_from l L desc hL hids hne (l.length + 1) 0 none rfl (by omega)
    rw [List.drop_zero] at h
    exact h
  · intro hdir
    constructor
    · have h := pagesPg_from l tid L desc hL hids hdir hne (l.length + 1) 0 none
        (Or.inl ⟨rfl, rfl⟩) (by omega)
      rw [List.drop_zero] at h
      exact h
    · have h := List.Perm.map (fun r => r.item) (pgSorted_perm desc (rowsOf tid l))
      rw [map_item_rowsOf] at h
      exact h
  · intro c
    constructor
    · simp only [loadThreadItemsMem, List.length_take]
      omega
    · simp only [loadThreadItemsMem, decide_eq_true_eq, ne_eq, List.drop_eq_nil_iff,
        not_le, List.length_take, List.length_drop]
  · intro c q page hq hpage
    simp only [loadThreadItemsPg, hq] at hpage
    have hpg := Except.ok.inj hpage
    rw [← hpg]
    constructor
    · simp only [List.length_map, List.length_take]
      omega
    · simp only [decide_eq_true_eq, List.length_take, pgSorted_length]
      omega

/-- Witness for C3 (amended) at a two-item thread with page size one. -/
theorem c3_pagination_exactly_once_witness :
    pagesMem [⟨"a", 1, "pa"⟩, ⟨"b", 2, "pb"⟩] 1 false 3 none =
      some (memSorted false [⟨"a", 1, "pa"⟩, ⟨"b", 2, "pb"⟩]) ∧
    (memSorted false [⟨"a", 1, "pa"⟩, ⟨"b", 2, "pb"⟩]).Perm
      [⟨"a", 1, "pa"⟩, ⟨"b", 2, "pb"⟩] :=
  (c3_pagination_exactly_once [⟨"a", 1, "pa"⟩, ⟨"b", 2, "pb"⟩] "t" 1 false (by decide)
    (by decide) (by decide)).1

/-! ## Claim theorems: thread deletion and missing-id deletion -/

/-- C9: deleting a thread removes the thread and every one of its items: a
subsequent `loadThread`, and `loadItem` for any of the thread's items, fails
with `NotFoundError` in both backends.  For the relational backend the
thread row must exist (the cascade is the thread row's) and the item
primary keys are unique. -/
theorem c9_delete_thread_cascades (ms : MemState) (ps : PgState) (tid : String) :
    (memLoadThread (memDeleteThread ms tid) tid =
      Except.error ("Thread " ++ tid ++ " not found")) ∧
    (∀ iid, memLoadItem (memDeleteThread ms tid) tid iid =
      Except.error ("Thread " ++ tid ++ " not found")) ∧
    ((ps.threads.find? (fun p => p.1 = tid)).isSome →
      (ps.items.map (fun r => r.id)).Nodup →
      pgLoadThread (pgDeleteThread ps tid) tid =
        Except.error ("Thread " ++ tid ++ " not found") ∧
      ∀ r ∈ ps.items, r.threadId = tid →
        pgLoadItem (pgDeleteThread ps tid) tid r.id =
          Except.error ("Thread item " ++ r.id ++ " not found in thread " ++ tid)) := by
  have hmemfind :
      (memDeleteThread ms tid).threads.find? (fun p => p.1 = tid) = none := by
    apply List.find?_eq_none.mpr
    intro x hx
    have := (List.mem_filter.mp hx).2
    simpa using this
  refine ⟨?_, ?_, ?_⟩
  · rw [memLoadThread, hmemfind]
  · intro iid
    rw [memLoadItem, hmemfind]
    rfl
  · intro hsome hnodup
    obtain ⟨p0, hp0⟩ := Option.isSome_iff_exists.mp hsome
    have hdel : pgDeleteThread ps tid =
        { ps with
          threads := ps.threads.filter (fun p => ¬ (p.1 = tid))
          items := ps.items.filter (fun r => ¬ (r.threadId = tid)) } := by
      rw [pgDeleteThread, hp0]
    constructor
    · rw [hdel, pgLoadThread]
      have hfind : (ps.threads.filter (fun p => ¬ (p.1 = tid))).find?
          (fun p => p.1 = tid) = none := by
        apply List.find?_eq_none.mpr
        intro x hx
        have := (List.mem_filter.mp hx).2
        simpa using this
      rw [hfind]
    · intro r hr hrtid
      rw [hdel, pgLoadItem]
      have hfind : (ps.items.filter (fun r2 => ¬ (r2.threadId = tid))).find?
          (fun r2 => r2.id = r.id) = none := by
        apply List.find?_eq_none.mpr
        intro x hx
        obtain ⟨hxmem, hxtid⟩ := List.mem_filter.mp hx
        intro hxid
        have hxr : x = r := by
          apply List.inj_on_of_nodup_map hnodup hxmem hr
          simpa using hxid
        rw [hxr, hrtid] at hxtid
        simp at hxtid
      rw [hfind]

/-- Witness for C9 at a one-thread, one-item state in each backend. -/
theorem c9_delete_thread_cascades_witness :
    memLoadThread
        (memDeleteThread ⟨[("t", "m")], [("t", [⟨"i", 1, "p"⟩])], []⟩ "t") "t" =
      Except.error ("Thread " ++ "t" ++ " not found") ∧
    pgLoadItem
        (pgDeleteThread ⟨[("t", "m")], [⟨"i", "t", ⟨"i", 1, "p"⟩, 1⟩], []⟩ "t") "t" "i" =
      Except.error ("Thread item " ++ "i" ++ " not found in thread " ++ "t") :=
  ⟨(c9_delete_thread_cascades ⟨[("t", "m")], [("t", [⟨"i", 1, "p"⟩])], []⟩
      ⟨[("t", "m")], [⟨"i", "t", ⟨"i", 1, "p"⟩, 1⟩], []⟩ "t").1,
   ((c9_delete_thread_cascades ⟨[("t", "m")], [("t", [⟨"i", 1, "p"⟩])], []⟩
      ⟨[("t", "m")], [⟨"i", "t", ⟨"i", 1, "p"⟩, 1⟩], []⟩ "t").2.2 (by decide) (by decide)).2
    ⟨"i", "t", ⟨"i", 1, "p"⟩, 1⟩ (by decide) rfl⟩

/-- C10 (implicit): deleting by an id that is not present is a no-op in both
backends: `deleteThread`, `deleteItem` and `deleteAttachment` complete
without raising (they are total and take the no-op branch) and leave the
store state unchanged. -/
theorem c10_delete_missing_noop (ms : MemState) (ps : PgState) (tid iid aid : String) :
    ((∀ p ∈ ms.threads, p.1 ≠ tid) → (∀ p ∈ ms.items, p.1 ≠ tid) →
      memDeleteThread ms tid = ms) ∧
    ((∀ p ∈ ms.items, ∀ it ∈ p.2, it.id ≠ iid) → memDeleteItem ms tid iid = ms) ∧
    ((∀ p ∈ ms.attachments, p.1 ≠ aid) → memDeleteAttachment ms aid = ms) ∧
    ((∀ p ∈ ps.threads, p.1 ≠ tid) → pgDeleteThread ps tid = ps) ∧
    ((∀ r ∈ ps.items, r.id ≠ iid) → pgDeleteItem ps tid iid = ps) ∧
    ((∀ p ∈ ps.attachments, p.1 ≠ aid) → pgDeleteAttachment ps aid = ps) := by
  refine ⟨?_, ?_, ?_, ?_, ?_, ?_⟩
  · intro h1 h2
    obtain ⟨mt, mi, ma⟩ := ms
    simp only [memDeleteThread, MemState.mk.injEq]
    refine ⟨List.filter_eq_self.mpr ?_, List.filter_eq_self.mpr ?_, trivial⟩
    · intro a ha; simpa using h1 a ha
    · intro a ha; simpa using h2 a ha
  · intro h
    obtain ⟨mt, mi, ma⟩ := ms
    simp only [memDeleteItem, MemState.mk.injEq]
    refine ⟨trivial, ?_, trivial⟩
    apply map_self_of_mem
    intro p hp
    by_cases hpt : p.1 = tid
    · rw [if_pos hpt]
      have hfix : p.2.filter (fun it => ¬ (it.id = iid)) = p.2 := by
        apply List.filter_eq_self.mpr
        intro it hit
        simpa using h p hp it hit
      rw [hfix, Prod.mk.eta]
    · rw [if_neg hpt]
  · intro h
    obtain ⟨mt, mi, ma⟩ := ms
    simp only [memDeleteAttachment, MemState.mk.injEq]
    refine ⟨trivial, trivial, List.filter_eq_self.mpr ?_⟩
    intro a ha; simpa using h a ha
  · intro h
    have hfind : ps.threads.find? (fun p => p.1 = tid) = none := by
      apply List.find?_eq_none.mpr
      intro x hx
      simpa using h x hx
    rw [pgDeleteThread, hfind]
  · intro h
    have hfind : ps.items.find? (fun r => r.id = iid) = none := by
      apply List.find?_eq_none.mpr
      intro x hx
      simpa using h x hx
    rw [pgDeleteItem, hfind]
  · intro h
    have hfind : ps.attachments.find? (fun p => p.1 = aid) = none := by
      apply List.find?_eq_none.mpr
      intro x hx
      simpa using h x hx
    rw [pgDeleteAttachment, hfind]

/-- Witness for C10 at non-empty states and a missing id `"zzz"`. -/
theorem c10_delete_missing_noop_witness :
    memDeleteThread ⟨[("t", "m")], [("t", [⟨"i", 1, "p"⟩])], [("k", "v")]⟩ "zzz" =
      ⟨[("t", "m")], [("t", [⟨"i", 1, "p"⟩])], [("k", "v")]⟩ ∧
    memDeleteItem ⟨[("t", "m")], [("t", [⟨"i", 1, "p"⟩])], [("k", "v")]⟩ "t" "zzz" =
      ⟨[("t", "m")], [("t", [⟨"i", 1, "p"⟩])], [("k", "v")]⟩ ∧
    memDeleteAttachment ⟨[("t", "m")], [("t", [⟨"i", 1, "p"⟩])], [("k", "v")]⟩ "zzz" =
      ⟨[("t", "m")], [("t", [⟨"i", 1, "p"⟩])], [("k", "v")]⟩ ∧
    pgDeleteThread ⟨[("t", "m")], [⟨"i", "t", ⟨"i", 1, "p"⟩, 1⟩], [("k", "v")]⟩ "zzz" =
      ⟨[("t", "m")], [⟨"i", "t", ⟨"i", 1, "p"⟩, 1⟩], [("k", "v")]⟩ ∧
    pgDeleteItem ⟨[("t", "m")], [⟨"i", "t", ⟨"i", 1, "p"⟩, 1⟩], [("k", "v")]⟩ "t" "zzz" =
      ⟨[("t", "m")], [⟨"i", "t", ⟨"i", 1, "p"⟩, 1⟩], [("k", "v")]⟩ ∧
    pgDeleteAttachment ⟨[("t", "m")], [⟨"i", "t", ⟨"i", 1, "p"⟩, 1⟩], [("k", "v")]⟩ "zzz" =
      ⟨[("t", "m")], [⟨"i", "t", ⟨"i", 1, "p"⟩, 1⟩], [("k", "v")]⟩ :=
  ⟨(c10_delete_missing_noop ⟨[("t", "m")], [("t", [⟨"i", 1, "p"⟩])], [("k", "v")]⟩
      ⟨[("t", "m")], [⟨"i", "t", ⟨"i", 1, "p"⟩, 1⟩], [("k", "v")]⟩ "zzz" "zzz" "zzz").1
      (by decide) (by decide),
   (c10_delete_missing_noop ⟨[("t", "m")], [("t", [⟨"i", 1, "p"⟩])], [("k", "v")]⟩
      ⟨[("t", "m")], [⟨"i", "t", ⟨"i", 1, "p"⟩, 1⟩], [("k", "v")]⟩ "t" "zzz" "zzz").2.1
      (by decide),
   (c10_delete_missing_noop ⟨[("t", "m")], [("t", [⟨"i", 1, "p"⟩])], [("k", "v")]⟩
      ⟨[("t", "m")], [⟨"i", "t", ⟨"i", 1, "p"⟩, 1⟩], [("k", "v")]⟩ "zzz" "zzz" "zzz").2.2.1
      (by decide),
   (c10_delete_missing_noop ⟨[("t", "m")], [("t", [⟨"i", 1, "p"⟩])], [("k", "v")]⟩
      ⟨[("t", "m")], [⟨"i", "t", ⟨"i", 1, "p"⟩, 1⟩], [("k", "v")]⟩ "zzz" "zzz" "zzz").2.2.2.1
      (by decide),
   (c10_delete_missing_noop ⟨[("t", "m")], [("t", [⟨"i", 1, "p"⟩])], [("k", "v")]⟩
      ⟨[("t", "m")], [⟨"i", "t", ⟨"i", 1, "p"⟩, 1⟩], [("k", "v")]⟩ "t" "zzz" "zzz").2.2.2.2.1
      (by decide),
   (c10_delete_missing_noop ⟨[("t", "m")], [("t", [⟨"i", 1, "p"⟩])], [("k", "v")]⟩
      ⟨[("t", "m")], [⟨"i", "t", ⟨"i", 1, "p"⟩, 1⟩], [("k", "v")]⟩ "zzz" "zzz" "zzz").2.2.2.2.2
      (by decide)⟩

/-- Witness for C8 (amended): a successful compile-and-execute round trip. -/
theorem c8_amended_wrapper_witness :
    queryPsFinance (fun _ _ => Except.ok ([] : List ResultRow))
      "gl_summary" c4Select c4Filters (some 10) [] [] =
      Except.ok (ToolOutput.result "gl_summary" ([] : List ResultRow).length []) :=
  (c8_amended_wrapper (fun _ _ => Except.ok ([] : List ResultRow))
      "gl_summary" c4Select c4Filters (some 10) [] []).2.1
    ("SELECT TOP 10 " ++ c4SqlBody) c4Params [] buildSql_c4_eval rfl

end App
